import Mathlib

/-!
Verification of the dnscatz repository (catz2nsd.py / zones2catz.py): a shallow
embedding in Lean 4 of the catalog-zone interpreter, the multi-catalog
validator, the current-state parser and the zone-set reconciler, together with
theorems settling the specified properties.

Conventions of the embedding:
* Python strings are Lean `String` (a structure over `List Char`); the regular
  expression character classes `\w`, `\s`, `\S` and the `str.lower` method are
  modelled at the ASCII level, which is the range the zone-list and pattern
  data of this program live in.
* Python `dict` is an association list with unique keys (first-match lookup,
  in-place overwrite), `set` is a list with membership-guarded insertion.
* A Python function that can raise is `Except CatzError`; the distinct
  exception classes of catz2nsd.py are the constructors of `CatzError`.
  `CatzError.typeError` stands for an unhandled Python `TypeError`
  (e.g. `len(None)`), which is not caught by `main`'s `except` clause.
-/

deriving instance DecidableEq for Except

namespace Dnscatz

/-- Exceptions raised along the paths modelled here.  `invalidConfigurationError`
and `catalogZoneError` embed the exception classes of catz2nsd.py;
`typeError` stands for Python's built-in `TypeError` (raised for instance by
`len(None)`), which `main` does not catch. -/
inductive CatzError where
  | invalidConfigurationError (msg : String)
  | catalogZoneError (msg : String)
  | typeError
deriving DecidableEq, Repr

/-- One node of a (parsed) DNS catalog zone, as seen by `get_catz_zones`:
the node's name relative to the origin (`str(k)` in the source), its TXT
rdataset and its PTR rdataset.  `none` models `Node.get_rdataset` returning
`None` (no rdataset of that type); `some l` models an rdataset whose records
have presentation strings `l`. -/
structure CatzNode where
  name : String
  txt : Option (List String)
  ptr : Option (List String)
deriving DecidableEq, Repr

/-- `SUPPORTED_VERSIONS = [2]` (catz2nsd.py line 41). -/
def SUPPORTED_VERSIONS : List Nat := [2]

/-- Python `s.startswith(p)`: the first `|p|` characters of `s` are `p`. -/
def pyStartsWith (s p : String) : Bool :=
  s.data.take p.data.length = p.data

/-- Python `s.endswith(p)`: the last `|p|` characters of `s` are `p`. -/
def pyEndsWith (s p : String) : Bool :=
  s.data.drop (s.data.length - p.data.length) = p.data ∧ p.data.length ≤ s.data.length

/-- Python `str.rstrip(".")`: remove all trailing dots. -/
def rstripDots (s : String) : String :=
  ⟨(s.data.reverse.dropWhile (fun c => c = '.')).reverse⟩

/-- Python set `add`: append the element unless already present. -/
def setAdd (l : List String) (x : String) : List String :=
  if x ∈ l then l else l ++ [x]

/-- Embeds `get_catz_version` (catz2nsd.py lines 239-244) applied to the
presentation string of a TXT record: `re.fullmatch(r"\"(\d+)\"", str(rr))`
succeeds exactly on a double-quoted nonempty run of decimal digits, in which
case the digits are decoded; otherwise the Python function returns `None`.
(The `rr.rdtype != TXT` guard cannot fire on the call path modelled here,
since the record comes from the TXT rdataset.) -/
def get_catz_version (s : String) : Option Nat :=
  match s.data with
  | '"' :: rest =>
    if rest.getLast? = some '"' ∧ rest.dropLast ≠ [] ∧ rest.dropLast.all Char.isDigit
    then some (rest.dropLast.foldl (fun n c => 10 * n + (c.toNat - 48)) 0)
    else none
  | _ => none

/-- The message of the version error, mirroring
`f"Unsupported catalog zone version ({catz_version})"` with Python's
formatting of `None` / an `int`. -/
def versionErrorMsg (v : Option Nat) : String :=
  "Unsupported catalog zone version (" ++ (match v with
    | none => "None"
    | some n => toString n) ++ ")"

/-- One iteration of the loop body of `get_catz_zones`
(catz2nsd.py lines 217-235) on node `node` with member accumulator `zones`. -/
def processNode (zones : List String) (node : CatzNode) :
    Except CatzError (List String) :=
  if node.name = "version" then
    match node.txt with
    | some (rr :: _) =>
      let catz_version := get_catz_version rr
      match catz_version with
      | some v =>
        if v ∈ SUPPORTED_VERSIONS then .ok zones
        else .error (.catalogZoneError (versionErrorMsg (some v)))
      | none => .error (.catalogZoneError (versionErrorMsg none))
    | _ => .ok zones
  else if pyStartsWith node.name "group." then .ok zones
  else if pyStartsWith node.name "coo." then .ok zones
  else if pyStartsWith node.name "serial." then .ok zones
  else if pyEndsWith node.name ".zones" then
    match node.ptr with
    | none => .error .typeError
    | some ptrs =>
      if ptrs.length ≠ 1 then .error (.catalogZoneError "Broken catalog zone (PTR)")
      else .ok (setAdd zones (rstripDots (ptrs.headI)))
  else .ok zones

/-- The loop of `get_catz_zones` over the remaining nodes, threading the
member accumulator and propagating the first raised exception. -/
def get_catz_zones_aux (zones : List String) :
    List CatzNode → Except CatzError (List String)
  | [] => .ok zones
  | node :: rest =>
    match processNode zones node with
    | .error e => .error e
    | .ok zones' => get_catz_zones_aux zones' rest

/-- Embeds `get_catz_zones` (catz2nsd.py lines 214-236): interpret a catalog
zone, given as its list of nodes, into its member-zone set. -/
def get_catz_zones (nodes : List CatzNode) : Except CatzError (List String) :=
  get_catz_zones_aux [] nodes

/-! ## The multi-catalog validator (`ensure_unique_zones`) -/

/-- Embeds the `CatalogZone` dataclass (catz2nsd.py lines 46-50): origin,
serving pattern and member-zone set of one catalog. -/
structure CatalogZone where
  origin : String
  pattern : String
  zones : List String
deriving DecidableEq, Repr

/-- Association-list lookup, modelling Python `dict` access
(`d[k]` / `k in d`): the value at the first (hence only) entry for the key. -/
def dictFind (m : List (String × List String)) (k : String) : Option (List String) :=
  (m.find? (fun p => p.1 = k)).map (fun p => p.2)

/-- `zone2catalogs[zone].add(origin)` on a `defaultdict(set)`: update the
entry of `z` if present, otherwise append a fresh singleton entry. -/
def dictAddOwner (m : List (String × List String)) (z o : String) :
    List (String × List String) :=
  match dictFind m z with
  | some _ => m.map (fun p => if p.1 = z then (p.1, setAdd p.2 o) else p)
  | none => m ++ [(z, [o])]

/-- The `zone2catalogs` map built by `ensure_unique_zones`
(catz2nsd.py lines 249-252): for every catalog and every member zone, record
the catalog's origin as an owner of that zone. -/
def zone2catalogs (czs : List CatalogZone) : List (String × List String) :=
  czs.foldl (fun acc cz => cz.zones.foldl (fun a z => dictAddOwner a z cz.origin) acc) []

/-- The entries reported by the error-logging loop of `ensure_unique_zones`
(catz2nsd.py lines 254-257): every zone whose owner set has more than one
element, with its owners. -/
def duplicate_zone_errors (czs : List CatalogZone) : List (String × List String) :=
  (zone2catalogs czs).filter (fun p => 1 < p.2.length)

/-- Embeds `ensure_unique_zones` (catz2nsd.py lines 247-259): after logging
every conflicting zone, raise `InvalidConfigurationError` iff the error
counter is nonzero. -/
def ensure_unique_zones (czs : List CatalogZone) : Except CatzError Unit :=
  if duplicate_zone_errors czs = [] then .ok ()
  else .error (.invalidConfigurationError "Duplicate zones found in catalogs")

/-! ## The current-state parser (`get_current_zones`) -/

/-- Python `str.isspace` membership for one ASCII character: the characters
stripped by `str.rstrip()` and matched by the regex class `\s`. -/
def isPySpace (c : Char) : Bool :=
  c = ' ' ∨ c = '\t' ∨ c = '\n' ∨ c = '\r' ∨ c = Char.ofNat 11 ∨ c = Char.ofNat 12

/-- Python `str.rstrip()`: remove all trailing whitespace. -/
def pyRstrip (s : String) : String :=
  ⟨(s.data.reverse.dropWhile isPySpace).reverse⟩

/-- The regex class `\w` at the ASCII level: `[A-Za-z0-9_]`. -/
def isWordChar (c : Char) : Bool :=
  c.isAlpha ∨ c.isDigit ∨ c = '_'

/-- `re.match(r"^add (\S+) (\w+)$", line)`: the line must be
`"add " ++ zone ++ " " ++ pat` where `zone` is a nonempty run of
non-whitespace characters and `pat` a nonempty run of word characters.
Since neither group may contain a space, the text after `"add "` splits at
its first space, and the match succeeds iff both parts pass their class
checks and nothing is left over. -/
def matchAddLine (line : String) : Option (String × String) :=
  match line.data with
  | 'a' :: 'd' :: 'd' :: ' ' :: rest =>
    let z := rest.takeWhile (fun c => c ≠ ' ')
    match rest.dropWhile (fun c => c ≠ ' ') with
    | ' ' :: p =>
      if z ≠ [] ∧ z.all (fun c => ¬ isPySpace c) ∧ p ≠ [] ∧ p.all isWordChar
      then some (⟨z⟩, ⟨p⟩)
      else none
    | _ => none
  | _ => none

/-- Python `str.lower` at the ASCII level. -/
def pyLower (s : String) : String :=
  ⟨s.data.map Char.toLower⟩

/-- Python `dict` assignment `res[k] = v`: overwrite the entry if the key is
present, else append. -/
def dictInsert (m : List (String × String)) (k v : String) :
    List (String × String) :=
  if (m.find? (fun p => p.1 = k)).isSome
  then m.map (fun p => if p.1 = k then (k, v) else p)
  else m ++ [(k, v)]

/-- One iteration of the loop of `get_current_zones`
(catz2nsd.py lines 266-270) on one line of the zone-list file. -/
def currentZonesLine (res : List (String × String)) (line : String) :
    List (String × String) :=
  if pyStartsWith line "#" then res
  else
    match matchAddLine (pyRstrip line) with
    | some (z, p) => dictInsert res (pyLower z) p
    | none => res

/-- Python `file.readlines()` on the file's text: split after every newline,
keeping the newline; a final fragment without a newline is kept, an empty
final fragment is not. -/
def readlinesAux (cur : List Char) : List Char → List (List Char)
  | [] => if cur = [] then [] else [cur.reverse]
  | c :: rest =>
    if c = '\n' then (cur.reverse ++ ['\n']) :: readlinesAux [] rest
    else readlinesAux (c :: cur) rest

/-- Embeds `get_current_zones` (catz2nsd.py lines 262-273) applied to the
text of the zone-list file: skip comment lines, collect
`add <zone> <pattern>` lines (zone lower-cased) into a dict, ignore
everything else.  (The `FileNotFoundError` branch, which yields the empty
dict, corresponds to the empty text.) -/
def get_current_zones (content : String) : List (String × String) :=
  ((readlinesAux [] content.data).map (fun l => (⟨l⟩ : String))).foldl
    currentZonesLine []

/-! ## The zone-set reconciler (the loop of `main`) -/

/-- A control command issued through `nsd_control`
(catz2nsd.py lines 276-281, 323/326/334). -/
inductive NsdOp where
  | addzone (zone pattern : String)
  | changezone (zone pattern : String)
  | delzone (zone : String)
deriving DecidableEq, Repr

/-- The zone name targeted by a control command. -/
def NsdOp.zone : NsdOp → String
  | .addzone z _ => z
  | .changezone z _ => z
  | .delzone z => z

/-- Python `dict` lookup on the current-state mapping:
`current_zone_patterns[zone]` resp. `zone not in current_zone_patterns`. -/
def lookupPattern (current : List (String × String)) (z : String) : Option String :=
  (current.find? (fun p => p.1 = z)).map (fun p => p.2)

/-- The inner loop of `main` (catz2nsd.py lines 320-329) for one catalog
zone: for each member, `addzone` when absent from the current mapping,
`changezone` when present with a different pattern, nothing when unchanged. -/
def reconcileCatalog (current : List (String × String)) (cz : CatalogZone) :
    List NsdOp :=
  cz.zones.filterMap (fun zone =>
    match lookupPattern current zone with
    | none => some (.addzone zone cz.pattern)
    | some p => if cz.pattern ≠ p then some (.changezone zone cz.pattern) else none)

/-- Embeds the reconciliation pass of `main` (catz2nsd.py lines 315-334):
the add/change commands of every catalog in order, followed by a `delzone`
for every current zone that is in no catalog (`current_zones - all_new_zones`). -/
def reconcile (czs : List CatalogZone) (current : List (String × String)) :
    List NsdOp :=
  (czs.flatMap (reconcileCatalog current)) ++
    ((current.map (fun p => p.1)).filter
      (fun z => z ∉ czs.flatMap CatalogZone.zones)).map NsdOp.delzone

/-- Embeds the control flow of `main` (catz2nsd.py lines 307-334): if
reading/parsing the configuration (including catalog interpretation) or the
cross-catalog validation raises, the run exits before any command is
emitted; otherwise the reconciliation commands are emitted. -/
def main_model (configResult : Except CatzError (List CatalogZone))
    (current : List (String × String)) : List NsdOp :=
  match configResult with
  | .error _ => []
  | .ok czs =>
    match ensure_unique_zones czs with
    | .error _ => []
    | .ok _ => reconcile czs current

/-! ## The catalog-zone generator (`zones2catz.generate_catalog_zone`) -/

/-- The record types occurring in a generated catalog zone. -/
inductive RRType where
  | soa | ns | txt | ptr
deriving DecidableEq, Repr

/-- One resource record of the generated zone text: owner name (absolute),
record type, and the rdata as printed. -/
structure GenRecord where
  owner : String
  rrtype : RRType
  rdata : String
deriving DecidableEq, Repr

/-- `CATZ_VERSION = 2` (zones2catz.py line 14). -/
def CATZ_VERSION : Nat := 2

/-- The generator's member-name completion: append a trailing dot unless one
is already there (zones2catz.py lines 56-57). -/
def ensureDot (z : String) : String :=
  if pyEndsWith z "." then z else z ++ "."

/-- Embeds `generate_catalog_zone` (zones2catz.py lines 27-59, the
`zones`-list branch) as the list of records it prints: SOA and NS at the
origin, `version.<origin> TXT "2"`, and one
`<zoneId>.zones.<origin> PTR <zone>.` per member.  `zoneId` abstracts
`uuid.uuid5(uuid.NAMESPACE_DNS, zone)` (a lowercase hex-and-dash string,
injective up to SHA-1 collisions) and `serial` abstracts
`int(time.time())`. -/
def generate_catalog_zone (zoneId : String → String) (origin : String)
    (serial : Nat) (zones : List String) : List GenRecord :=
  [⟨origin, RRType.soa, "invalid. invalid. " ++ toString serial ++ " 3600 600 2147483647 0"⟩,
   ⟨origin, RRType.ns, "invalid."⟩,
   ⟨"version." ++ origin, RRType.txt, "\"" ++ toString CATZ_VERSION ++ "\""⟩] ++
  zones.map (fun z =>
    let zd := ensureDot z
    ⟨zoneId zd ++ ".zones." ++ origin, RRType.ptr, zd⟩)

/-- Modelled from the spec: the external DNS zone parser (dnspython
`dns.zone.from_text` / `from_xfr` with its default `relativize=True`), which
is not part of this repository, relativizes every name against the origin.
A name equal to the origin presents as `"@"`, a name below the origin loses
the `"." ++ origin` suffix (and thereby its trailing dot), any other name
stays absolute. -/
def relativizeName (origin n : String) : String :=
  if n = origin then "@"
  else if n.data.drop (n.data.length - ("." ++ origin).data.length) = ("." ++ origin).data
  then ⟨n.data.take (n.data.length - (origin.data.length + 1))⟩
  else n

/-- An rdataset from a list of records: `none` when there are no records of
the type (dnspython keeps no empty rdataset). -/
def optRdatas (l : List String) : Option (List String) :=
  if l = [] then none else some l

/-- Modelled from the spec: the external DNS zone parser groups the records
by relativized owner name into nodes; within a node the records of one type
form that type's rdataset; PTR targets are themselves relativized against
the origin.  The result is the node list that `get_catz_zones` walks. -/
def parseZone (origin : String) (recs : List GenRecord) : List CatzNode :=
  let rel := recs.map (fun r =>
    { r with
      owner := relativizeName origin r.owner
      rdata := if r.rrtype = RRType.ptr then relativizeName origin r.rdata else r.rdata })
  ((rel.map (fun r => r.owner)).dedup).map (fun n =>
    let mine := rel.filter (fun r => r.owner = n)
    { name := n
      txt := optRdatas ((mine.filter (fun r => r.rrtype = RRType.txt)).map (fun r => r.rdata))
      ptr := optRdatas ((mine.filter (fun r => r.rrtype = RRType.ptr)).map (fun r => r.rdata)) })

/-- The round trip of spec §8: generate a catalog zone for `zones` at
`origin`, parse it, and interpret it with `get_catz_zones`. -/
def roundTrip (zoneId : String → String) (origin : String) (serial : Nat)
    (zones : List String) : Except CatzError (List String) :=
  get_catz_zones (parseZone origin (generate_catalog_zone zoneId origin serial zones))

/-- The characters of a version-5 UUID in its string form: lowercase
hexadecimal digits and the dash. -/
def isHexDash (c : Char) : Bool :=
  c.isDigit ∨ ('a' ≤ c ∧ c ≤ 'f') ∨ c = '-'

/-! ## Helper lemmas -/

lemma takeWhile_append_of_all {p : Char → Bool} {l₁ l₂ : List Char}
    (h : ∀ x ∈ l₁, p x = true) :
    (l₁ ++ l₂).takeWhile p = l₁ ++ l₂.takeWhile p := by
  induction l₁ with
  | nil => simp
  | cons a l ih =>
    have ha := h a (List.mem_cons_self a l)
    simp [List.takeWhile_cons, ha, ih (fun x hx => h x (List.mem_cons_of_mem a hx))]

lemma dropWhile_append_of_all {p : Char → Bool} {l₁ l₂ : List Char}
    (h : ∀ x ∈ l₁, p x = true) :
    (l₁ ++ l₂).dropWhile p = l₂.dropWhile p := by
  induction l₁ with
  | nil => simp
  | cons a l ih =>
    have ha := h a (List.mem_cons_self a l)
    simp [List.dropWhile_cons, ha, ih (fun x hx => h x (List.mem_cons_of_mem a hx))]

lemma dropWhile_eq_self_of_head {p : Char → Bool} {l : List Char}
    (h : ∀ c, l.head? = some c → p c = false) : l.dropWhile p = l := by
  cases l with
  | nil => rfl
  | cons a l => simp [List.dropWhile_cons, h a rfl]

lemma word_not_pyspace {c : Char} (h : isWordChar c = true) : isPySpace c = false := by
  simp only [isPySpace, decide_eq_false_iff_not]
  rintro (rfl | rfl | rfl | rfl | rfl | rfl) <;> exact absurd h (by decide)

lemma pyspace_ne_space_false {c : Char} (h : isPySpace c = false) : (c = ' ') = False := by
  simp only [isPySpace, decide_eq_false_iff_not] at h
  simp only [eq_iff_iff, iff_false]
  exact fun e => h (Or.inl e)

lemma pyRstrip_eq_self {s : String} (h : ∀ c, s.data.getLast? = some c → isPySpace c = false) :
    pyRstrip s = s := by
  unfold pyRstrip
  rw [dropWhile_eq_self_of_head (by simpa using h), List.reverse_reverse]

lemma getLast?_append_of_ne_nil {l₁ l₂ : List Char} (h : l₂ ≠ []) :
    (l₁ ++ l₂).getLast? = l₂.getLast? := by
  induction l₁ with
  | nil => rfl
  | cons a l ih =>
    rw [List.cons_append, List.getLast?_cons, ih]
    cases l₂ with
    | nil => exact absurd rfl h
    | cons b t => simp [List.getLast?_cons]

lemma addLine_data (z p : String) :
    ("add " ++ z ++ " " ++ p).data
      = 'a' :: 'd' :: 'd' :: ' ' :: (z.data ++ ' ' :: p.data) := by
  simp [String.data_append]

lemma matchAddLine_mk (l : List Char) :
    matchAddLine ⟨'a' :: 'd' :: 'd' :: ' ' :: l⟩
      = (match l.dropWhile (fun c => c ≠ ' ') with
         | ' ' :: pt =>
           if l.takeWhile (fun c => c ≠ ' ') ≠ [] ∧
              (l.takeWhile (fun c => c ≠ ' ')).all (fun c => ¬ isPySpace c) ∧
              pt ≠ [] ∧ pt.all isWordChar
           then some ((⟨l.takeWhile (fun c => c ≠ ' ')⟩ : String), (⟨pt⟩ : String))
           else none
         | _ => none) := rfl

lemma all_ne_space_of_not_pyspace {z : List Char}
    (hzs : ∀ c ∈ z, isPySpace c = false) :
    ∀ c ∈ z, (fun c => decide (c ≠ ' ')) c = true := by
  intro c hc
  simpa using fun e => by
    have := hzs c hc
    rw [e] at this
    exact absurd this (by decide)

lemma matchAddLine_of_wellFormed (z p : String)
    (hz : z.data ≠ []) (hzs : ∀ c ∈ z.data, isPySpace c = false)
    (hp : p.data ≠ []) (hpw : ∀ c ∈ p.data, isWordChar c = true) :
    matchAddLine ("add " ++ z ++ " " ++ p) = some (z, p) := by
  have hline : ("add " ++ z ++ " " ++ p)
      = ⟨'a' :: 'd' :: 'd' :: ' ' :: (z.data ++ ' ' :: p.data)⟩ :=
    congrArg String.mk (addLine_data z p)
  have hzne := all_ne_space_of_not_pyspace hzs
  have htake : (z.data ++ ' ' :: p.data).takeWhile (fun c => c ≠ ' ') = z.data := by
    rw [takeWhile_append_of_all hzne]
    simp [List.takeWhile_cons]
  have hdrop : (z.data ++ ' ' :: p.data).dropWhile (fun c => c ≠ ' ') = ' ' :: p.data := by
    rw [dropWhile_append_of_all hzne]
    simp [List.dropWhile_cons]
  rw [hline, matchAddLine_mk, hdrop]
  simp only [htake]
  split_ifs with h
  · rfl
  · refine absurd ⟨hz, ?_, hp, ?_⟩ h
    · rw [List.all_eq_true]
      intro c hc
      simp [hzs c hc]
    · rw [List.all_eq_true]
      intro c hc
      exact hpw c hc

lemma matchAddLine_of_badPattern (z p : String)
    (hzs : ∀ c ∈ z.data, isPySpace c = false)
    (hbad : ∃ c ∈ p.data, isWordChar c = false) :
    matchAddLine ("add " ++ z ++ " " ++ p) = none := by
  have hline : ("add " ++ z ++ " " ++ p)
      = ⟨'a' :: 'd' :: 'd' :: ' ' :: (z.data ++ ' ' :: p.data)⟩ :=
    congrArg String.mk (addLine_data z p)
  have hzne := all_ne_space_of_not_pyspace hzs
  have hdrop : (z.data ++ ' ' :: p.data).dropWhile (fun c => c ≠ ' ') = ' ' :: p.data := by
    rw [dropWhile_append_of_all hzne]
    simp [List.dropWhile_cons]
  rw [hline, matchAddLine_mk, hdrop]
  rw [show (match ' ' :: p.data with
    | ' ' :: pt =>
      if (z.data ++ ' ' :: p.data).takeWhile (fun c => c ≠ ' ') ≠ [] ∧
         ((z.data ++ ' ' :: p.data).takeWhile (fun c => c ≠ ' ')).all
           (fun c => ¬ isPySpace c) ∧ pt ≠ [] ∧ pt.all isWordChar
      then some ((⟨(z.data ++ ' ' :: p.data).takeWhile (fun c => c ≠ ' ')⟩ : String),
        (⟨pt⟩ : String))
      else none
    | _ => none)
    = if (z.data ++ ' ' :: p.data).takeWhile (fun c => c ≠ ' ') ≠ [] ∧
         ((z.data ++ ' ' :: p.data).takeWhile (fun c => c ≠ ' ')).all
           (fun c => ¬ isPySpace c) ∧ p.data ≠ [] ∧ p.data.all isWordChar
      then some ((⟨(z.data ++ ' ' :: p.data).takeWhile (fun c => c ≠ ' ')⟩ : String),
        (⟨p.data⟩ : String))
      else none from rfl]
  split_ifs with h
  · obtain ⟨-, -, -, hall⟩ := h
    rw [List.all_eq_true] at hall
    obtain ⟨c, hc, hcb⟩ := hbad
    exact absurd (hall c hc) (by simp [hcb])
  · rfl

lemma addLine_not_comment (z p : String) :
    pyStartsWith ("add " ++ z ++ " " ++ p) "#" = false := by
  rw [pyStartsWith, addLine_data]
  rfl

lemma addLine_rstrip (z p : String) (hp : p.data ≠ [])
    (hpl : ∀ c, p.data.getLast? = some c → isPySpace c = false) :
    pyRstrip ("add " ++ z ++ " " ++ p) = "add " ++ z ++ " " ++ p := by
  apply pyRstrip_eq_self
  intro c hc
  rw [addLine_data] at hc
  have : ('a' :: 'd' :: 'd' :: ' ' :: (z.data ++ ' ' :: p.data)).getLast?
      = p.data.getLast? := by
    show (['a', 'd', 'd', ' '] ++ (z.data ++ ' ' :: p.data)).getLast? = _
    rw [getLast?_append_of_ne_nil (by simp), getLast?_append_of_ne_nil (by simp)]
    exact @getLast?_append_of_ne_nil [' '] p.data hp
  rw [this] at hc
  exact hpl c hc

lemma getLast?_mem {l : List Char} {c : Char} (h : l.getLast? = some c) : c ∈ l := by
  cases l with
  | nil => cases h
  | cons a t =>
    rw [List.getLast?_eq_getLast _ (by simp)] at h
    cases h
    exact List.getLast_mem _

lemma currentZonesLine_accepted (res : List (String × String)) (z p : String)
    (hz : z.data ≠ []) (hzs : ∀ c ∈ z.data, isPySpace c = false)
    (hp : p.data ≠ []) (hpw : ∀ c ∈ p.data, isWordChar c = true) :
    currentZonesLine res ("add " ++ z ++ " " ++ p) = dictInsert res (pyLower z) p := by
  simp only [currentZonesLine, addLine_not_comment, Bool.false_eq_true, if_false,
    addLine_rstrip z p hp (fun c hc => word_not_pyspace (hpw c (getLast?_mem hc))),
    matchAddLine_of_wellFormed z p hz hzs hp hpw]

lemma currentZonesLine_dropped (res : List (String × String)) (z p : String)
    (hzs : ∀ c ∈ z.data, isPySpace c = false)
    (hp : p.data ≠ []) (hps : ∀ c ∈ p.data, isPySpace c = false)
    (hbad : ∃ c ∈ p.data, isWordChar c = false) :
    currentZonesLine res ("add " ++ z ++ " " ++ p) = res := by
  simp only [currentZonesLine, addLine_not_comment, Bool.false_eq_true, if_false,
    addLine_rstrip z p hp (fun c hc => hps c (getLast?_mem hc)),
    matchAddLine_of_badPattern z p hzs hbad]

lemma filterMap_const_some (f : String → NsdOp) (l : List String) :
    l.filterMap (fun z => some (f z)) = l.map f := by
  induction l with
  | nil => rfl
  | cons a t ih => simp [List.filterMap_cons, ih]

lemma reconcileCatalog_nil (cz : CatalogZone) :
    reconcileCatalog [] cz = cz.zones.map (fun w => NsdOp.addzone w cz.pattern) := by
  unfold reconcileCatalog
  have h : ∀ l : List String, (l.filterMap (fun zone =>
      match lookupPattern [] zone with
      | none => some (NsdOp.addzone zone cz.pattern)
      | some p => if cz.pattern ≠ p then some (NsdOp.changezone zone cz.pattern) else none))
      = l.map (fun w => NsdOp.addzone w cz.pattern) := by
    intro l
    induction l with
    | nil => rfl
    | cons a t ih => simp [List.filterMap_cons, lookupPattern, ih, filterMap_const_some]
  exact h cz.zones

/-! ## Claims about the current-state parser -/

/-- C8: `get_current_zones` ignores lines beginning with `#`, maps each line
of the shape `add <zone> <pattern>` (zone nonempty and whitespace-free,
pattern a nonempty run of word characters) to the entry
`zone.lower() → pattern`, ignores every line the regex rejects, and in
particular the input `"# c\nadd example.com ns1\ngarbage\n"` yields exactly
`{"example.com": "ns1"}`. -/
theorem C8_get_current_zones_spec :
    (∀ res line, pyStartsWith line "#" = true → currentZonesLine res line = res) ∧
    (∀ res (z p : String), z.data ≠ [] → (∀ c ∈ z.data, isPySpace c = false) →
      p.data ≠ [] → (∀ c ∈ p.data, isWordChar c = true) →
      currentZonesLine res ("add " ++ z ++ " " ++ p) = dictInsert res (pyLower z) p) ∧
    (∀ res line, pyStartsWith line "#" = false → matchAddLine (pyRstrip line) = none →
      currentZonesLine res line = res) ∧
    get_current_zones "# c\nadd example.com ns1\ngarbage\n" = [("example.com", "ns1")] := by
  refine ⟨?_, ?_, ?_, by decide⟩
  · intro res line h
    simp [currentZonesLine, h]
  · intro res z p hz hzs hp hpw
    exact currentZonesLine_accepted res z p hz hzs hp hpw
  · intro res line h hm
    simp [currentZonesLine, h, hm]

/-- Witness for C8 at concrete inputs: a comment line is skipped, a
well-formed `add` line is recorded lower-cased, an unmatched line is
skipped. -/
theorem C8_get_current_zones_spec_witness :
    currentZonesLine [] "# note" = [] ∧
    currentZonesLine [] ("add " ++ "EX.com" ++ " " ++ "ns_1")
      = dictInsert [] (pyLower "EX.com") "ns_1" ∧
    currentZonesLine [] "garbage" = [] :=
  ⟨C8_get_current_zones_spec.1 [] "# note" (by decide),
   C8_get_current_zones_spec.2.1 [] "EX.com" "ns_1"
     (by decide) (by decide) (by decide) (by decide),
   C8_get_current_zones_spec.2.2.1 [] "garbage" (by decide) (by decide)⟩

/-- C10: an `add` line whose pattern token contains a character outside
`[A-Za-z0-9_]` (for instance a hyphen) is silently dropped by
`get_current_zones`, leaving its zone absent from the current mapping; and
against an empty current mapping the reconciler emits `addzone` for every
desired zone, so such a zone is re-added on every run. -/
theorem C10_nonword_pattern_dropped :
    (∀ res (z p : String), (∀ c ∈ z.data, isPySpace c = false) →
      p.data ≠ [] → (∀ c ∈ p.data, isPySpace c = false) →
      (∃ c ∈ p.data, isWordChar c = false) →
      currentZonesLine res ("add " ++ z ++ " " ++ p) = res) ∧
    (∀ czs : List CatalogZone, reconcile czs [] =
      czs.flatMap (fun cz => cz.zones.map (fun w => NsdOp.addzone w cz.pattern))) ∧
    get_current_zones "add example.com ns-1\n" = [] := by
  refine ⟨?_, ?_, by decide⟩
  · intro res z p hzs hp hps hbad
    exact currentZonesLine_dropped res z p hzs hp hps hbad
  · intro czs
    unfold reconcile
    simp only [List.map_nil, List.filter_nil, List.append_nil]
    rw [show reconcileCatalog ([] : List (String × String))
        = (fun cz => cz.zones.map (fun w => NsdOp.addzone w cz.pattern))
      from funext reconcileCatalog_nil]

/-- Witness for C10: the hyphenated pattern `ns-1` is dropped, and the zone
is then re-added by the reconciler. -/
theorem C10_nonword_pattern_dropped_witness :
    currentZonesLine [] ("add " ++ "example.com" ++ " " ++ "ns-1") = [] ∧
    reconcile [⟨"o", "p1", ["example.com"]⟩] []
      = [NsdOp.addzone "example.com" "p1"] :=
  ⟨C10_nonword_pattern_dropped.1 [] "example.com" "ns-1"
     (by decide) (by decide) (by decide) ⟨'-', by decide, by decide⟩,
   by rw [C10_nonword_pattern_dropped.2.1]; rfl⟩

/-! ## Lemmas about the catalog-zone interpreter -/

lemma get_catz_zones_aux_append (zones : List String) (l₁ l₂ : List CatzNode) :
    get_catz_zones_aux zones (l₁ ++ l₂) =
      match get_catz_zones_aux zones l₁ with
      | Except.error e => Except.error e
      | Except.ok z' => get_catz_zones_aux z' l₂ := by
  induction l₁ generalizing zones with
  | nil => rfl
  | cons n rest ih =>
    rw [List.cons_append]
    cases hp : processNode zones n with
    | error e => simp [get_catz_zones_aux, hp]
    | ok zones' => simp [get_catz_zones_aux, hp, ih zones']

/-- Reduction of `processNode` on a node named `version` with a nonempty
TXT rdataset. -/
lemma processNode_version_txt (zones : List String) (rr : String)
    (rest : List String) (pt : Option (List String)) :
    processNode zones ⟨"version", some (rr :: rest), pt⟩
      = (match get_catz_version rr with
         | some v => if v ∈ SUPPORTED_VERSIONS then Except.ok zones
             else Except.error (CatzError.catalogZoneError (versionErrorMsg (some v)))
         | none => Except.error (CatzError.catalogZoneError (versionErrorMsg none))) :=
  rfl

/-- The version branch of `processNode` when the decoded version is
unsupported (including the undecodable case `None`). -/
lemma processNode_version_bad (zones : List String) (rr : String)
    (rest : List String) (pt : Option (List String))
    (hbad : ∀ v, get_catz_version rr = some v → v ∉ SUPPORTED_VERSIONS) :
    processNode zones ⟨"version", some (rr :: rest), pt⟩
      = .error (.catalogZoneError (versionErrorMsg (get_catz_version rr))) := by
  rw [processNode_version_txt]
  cases hv : get_catz_version rr with
  | none => rfl
  | some v => simp [hbad v hv]

/-- The version branch of `processNode` when the decoded version is the
supported `2`: the node contributes nothing and raises nothing. -/
lemma processNode_version_ok (zones : List String) (rr : String)
    (rest : List String) (pt : Option (List String))
    (hgood : get_catz_version rr = some 2) :
    processNode zones ⟨"version", some (rr :: rest), pt⟩ = .ok zones := by
  rw [processNode_version_txt, hgood]
  simp [SUPPORTED_VERSIONS]

/-- Reduction of `processNode` on a node caught by the `group.` branch. -/
lemma processNode_group (zones : List String) (nm : String)
    (tx pt : Option (List String)) (hname : nm ≠ "version")
    (h2 : pyStartsWith nm "group." = true) :
    processNode zones ⟨nm, tx, pt⟩ = .ok zones := by
  unfold processNode
  rw [if_neg hname, if_pos h2]

/-- Reduction of `processNode` on a node caught by the `coo.` branch. -/
lemma processNode_coo (zones : List String) (nm : String)
    (tx pt : Option (List String)) (hname : nm ≠ "version")
    (h2 : pyStartsWith nm "group." = false)
    (h3 : pyStartsWith nm "coo." = true) :
    processNode zones ⟨nm, tx, pt⟩ = .ok zones := by
  unfold processNode
  rw [if_neg hname, if_neg (by simp [h2]), if_pos h3]

/-- Reduction of `processNode` on a node caught by the `serial.` branch. -/
lemma processNode_serial (zones : List String) (nm : String)
    (tx pt : Option (List String)) (hname : nm ≠ "version")
    (h2 : pyStartsWith nm "group." = false)
    (h3 : pyStartsWith nm "coo." = false)
    (h4 : pyStartsWith nm "serial." = true) :
    processNode zones ⟨nm, tx, pt⟩ = .ok zones := by
  unfold processNode
  rw [if_neg hname, if_neg (by simp [h2]), if_neg (by simp [h3]), if_pos h4]

/-- Reduction of `processNode` on a member node (name ending in `.zones`):
the PTR-cardinality check of catz2nsd.py lines 232-235. -/
lemma processNode_zones_node (zones : List String) (nm : String)
    (tx pt : Option (List String)) (hname : nm ≠ "version")
    (h2 : pyStartsWith nm "group." = false)
    (h3 : pyStartsWith nm "coo." = false)
    (h4 : pyStartsWith nm "serial." = false)
    (h5 : pyEndsWith nm ".zones" = true) :
    processNode zones ⟨nm, tx, pt⟩
      = match pt with
        | none => Except.error CatzError.typeError
        | some ptrs =>
          if ptrs.length ≠ 1
          then Except.error (CatzError.catalogZoneError "Broken catalog zone (PTR)")
          else Except.ok (setAdd zones (rstripDots ptrs.headI)) := by
  unfold processNode
  rw [if_neg hname, if_neg (by simp [h2]), if_neg (by simp [h3]),
    if_neg (by simp [h4]), if_pos h5]

/-- Reduction of `processNode` on any other node: ignored. -/
lemma processNode_other (zones : List String) (nm : String)
    (tx pt : Option (List String)) (hname : nm ≠ "version")
    (h2 : pyStartsWith nm "group." = false)
    (h3 : pyStartsWith nm "coo." = false)
    (h4 : pyStartsWith nm "serial." = false)
    (h5 : pyEndsWith nm ".zones" = false) :
    processNode zones ⟨nm, tx, pt⟩ = .ok zones := by
  unfold processNode
  rw [if_neg hname, if_neg (by simp [h2]), if_neg (by simp [h3]),
    if_neg (by simp [h4]), if_neg (by simp [h5])]

/-- Any error of `processNode` is a `catalogZoneError`, unless the node ends
in `.zones` and has no PTR rdataset (the `len(None)` TypeError). -/
lemma processNode_error_catalog {zones : List String} {n : CatzNode} {e : CatzError}
    (hp : n.ptr = none → pyEndsWith n.name ".zones" = false)
    (h : processNode zones n = .error e) :
    ∃ msg, e = CatzError.catalogZoneError msg := by
  obtain ⟨nm, tx, pt⟩ := n
  by_cases hname : nm = "version"
  · subst hname
    match tx with
    | none => exact absurd h (by simp [processNode])
    | some [] => exact absurd h (by simp [processNode])
    | some (rr :: rest) =>
      rw [processNode_version_txt] at h
      cases hv : get_catz_version rr with
      | none =>
        rw [hv] at h
        simp only [Except.error.injEq] at h
        exact ⟨_, h.symm⟩
      | some v =>
        rw [hv] at h
        simp only at h
        by_cases hvs : v ∈ SUPPORTED_VERSIONS
        · rw [if_pos hvs] at h
          exact absurd h (by simp)
        · rw [if_neg hvs] at h
          simp only [Except.error.injEq] at h
          exact ⟨_, h.symm⟩
  · by_cases h2 : pyStartsWith nm "group." = true
    · rw [processNode_group zones nm tx pt hname h2] at h
      exact absurd h (by simp)
    · replace h2 : pyStartsWith nm "group." = false := by simpa using h2
      by_cases h3 : pyStartsWith nm "coo." = true
      · rw [processNode_coo zones nm tx pt hname h2 h3] at h
        exact absurd h (by simp)
      · replace h3 : pyStartsWith nm "coo." = false := by simpa using h3
        by_cases h4 : pyStartsWith nm "serial." = true
        · rw [processNode_serial zones nm tx pt hname h2 h3 h4] at h
          exact absurd h (by simp)
        · replace h4 : pyStartsWith nm "serial." = false := by simpa using h4
          by_cases h5 : pyEndsWith nm ".zones" = true
          · rw [processNode_zones_node zones nm tx pt hname h2 h3 h4 h5] at h
            cases pt with
            | none => exact absurd (hp rfl) (by simp [h5])
            | some ptrs =>
              simp only at h
              by_cases hl : ptrs.length ≠ 1
              · rw [if_pos hl] at h
                simp only [Except.error.injEq] at h
                exact ⟨_, h.symm⟩
              · rw [if_neg hl] at h
                exact absurd h (by simp)
          · replace h5 : pyEndsWith nm ".zones" = false := by simpa using h5
            rw [processNode_other zones nm tx pt hname h2 h3 h4 h5] at h
            exact absurd h (by simp)

/-- A node on which `processNode` always raises poisons the whole
interpretation: membership alone forces an error result. -/
lemma aux_error_of_mem_error (nodes : List CatzNode) (vnode : CatzNode)
    (herr : ∀ zones, ∃ e, processNode zones vnode = .error e) :
    vnode ∈ nodes → ∀ zones, ∃ e, get_catz_zones_aux zones nodes = .error e := by
  induction nodes with
  | nil => intro h; cases h
  | cons n ns ih =>
    intro hmem zones
    rcases List.mem_cons.mp hmem with rfl | hmem'
    · obtain ⟨e, he⟩ := herr zones
      exact ⟨e, by simp [get_catz_zones_aux, he]⟩
    · cases hp : processNode zones n with
      | error e => exact ⟨e, by simp [get_catz_zones_aux, hp]⟩
      | ok z' =>
        obtain ⟨e, he⟩ := ih hmem' z'
        exact ⟨e, by simp [get_catz_zones_aux, hp, he]⟩

/-- When no node can hit the `len(None)` TypeError, every interpreter error
is a `CatalogZoneError`. -/
lemma aux_error_catalog (nodes : List CatzNode) :
    (∀ n ∈ nodes, n.ptr = none → pyEndsWith n.name ".zones" = false) →
    ∀ zones e, get_catz_zones_aux zones nodes = .error e →
    ∃ msg, e = CatzError.catalogZoneError msg := by
  induction nodes with
  | nil => intro _ zones e h; exact absurd h (by simp [get_catz_zones_aux])
  | cons n ns ih =>
    intro hptr zones e h
    cases hp : processNode zones n with
    | error e' =>
      rw [show get_catz_zones_aux zones (n :: ns) = .error e' by
        simp [get_catz_zones_aux, hp]] at h
      injection h with h
      subst h
      exact processNode_error_catalog (hptr n (List.mem_cons_self n ns)) hp
    | ok z' =>
      rw [show get_catz_zones_aux zones (n :: ns) = get_catz_zones_aux z' ns by
        simp [get_catz_zones_aux, hp]] at h
      exact ih (fun m hm => hptr m (List.mem_cons_of_mem n hm)) z' e h

/-- `get_catz_version` hits `some` exactly on quoted nonempty digit runs. -/
lemma get_catz_version_some_shape {s : String} {v : Nat}
    (h : get_catz_version s = some v) :
    ∃ ds : List Char, ds ≠ [] ∧ ds.all Char.isDigit = true ∧
      s.data = '"' :: (ds ++ ['"']) := by
  unfold get_catz_version at h
  split at h
  next rest heq =>
    split_ifs at h with hc
    obtain ⟨h1, h2, h3⟩ := hc
    refine ⟨rest.dropLast, h2, h3, ?_⟩
    rw [heq]
    congr 1
    have hne : rest ≠ [] := by rintro rfl; simp at h1
    conv_lhs => rw [← List.dropLast_append_getLast hne]
    have hlast := List.getLast?_eq_getLast rest hne
    rw [hlast] at h1
    injection h1 with h1
    rw [h1]
  next => cases h

/-- `get_catz_version` on a quoted nonempty digit run decodes the digits. -/
lemma get_catz_version_of_shape {s : String} {ds : List Char}
    (heq : s.data = '"' :: (ds ++ ['"'])) (hne : ds ≠ [])
    (hdig : ds.all Char.isDigit = true) :
    get_catz_version s
      = some (ds.foldl (fun n c => 10 * n + (c.toNat - 48)) 0) := by
  have hs : s = ⟨'"' :: (ds ++ ['"'])⟩ := by rw [← heq]
  rw [hs]
  rw [show get_catz_version ⟨'"' :: (ds ++ ['"'])⟩
      = (if (ds ++ ['"']).getLast? = some '"' ∧ (ds ++ ['"']).dropLast ≠ [] ∧
            (ds ++ ['"']).dropLast.all Char.isDigit = true
         then some (((ds ++ ['"']).dropLast).foldl (fun n c => 10 * n + (c.toNat - 48)) 0)
         else none) from rfl]
  rw [if_pos ⟨List.getLast?_concat _,
    by rw [List.dropLast_concat]; exact hne,
    by rw [List.dropLast_concat]; exact hdig⟩]
  rw [List.dropLast_concat]

/-! ## Claims about the catalog-zone interpreter -/

/-- C4: the version gate.  If the catalog holds a `version` node with a TXT
record whose decoded version is unsupported, interpretation ends in an
error — no member zones at all — and (as long as no node can hit the
orthogonal `len(None)` TypeError of C5) that error is a `CatalogZoneError`.
If the decoded version is the supported `2`, the version node is a no-op
and interpretation proceeds to return the member set of the remaining
nodes. -/
theorem C4_version_gate :
    (∀ (nodes : List CatzNode) (rr : String) (rest : List String)
      (pt : Option (List String)),
      (⟨"version", some (rr :: rest), pt⟩ : CatzNode) ∈ nodes →
      (∀ v, get_catz_version rr = some v → v ∉ SUPPORTED_VERSIONS) →
      (∃ e, get_catz_zones nodes = .error e) ∧
      ((∀ n ∈ nodes, n.ptr = none → pyEndsWith n.name ".zones" = false) →
        ∃ msg, get_catz_zones nodes = .error (.catalogZoneError msg))) ∧
    (∀ (pre post : List CatzNode) (rr : String) (rest : List String)
      (pt : Option (List String)), get_catz_version rr = some 2 →
      get_catz_zones (pre ++ ⟨"version", some (rr :: rest), pt⟩ :: post)
        = get_catz_zones (pre ++ post)) := by
  constructor
  · intro nodes rr rest pt hmem hbad
    have herr : ∀ zones, ∃ e,
        processNode zones ⟨"version", some (rr :: rest), pt⟩ = .error e :=
      fun zones => ⟨_, processNode_version_bad zones rr rest pt hbad⟩
    have h1 := aux_error_of_mem_error nodes _ herr hmem []
    refine ⟨h1, fun hptr => ?_⟩
    obtain ⟨e, he⟩ := h1
    obtain ⟨msg, rfl⟩ := aux_error_catalog nodes hptr [] e he
    exact ⟨msg, he⟩
  · intro pre post rr rest pt hgood
    unfold get_catz_zones
    rw [get_catz_zones_aux_append, get_catz_zones_aux_append]
    cases h : get_catz_zones_aux [] pre with
    | error e => rfl
    | ok z' => simp [get_catz_zones_aux, processNode_version_ok z' rr rest pt hgood]

/-- Witness for C4: version `"3"` is rejected with a `CatalogZoneError` and
the catalog is voided; version `"2"` is accepted and the member node is
interpreted. -/
theorem C4_version_gate_witness :
    (∃ msg, get_catz_zones
        [⟨"version", some ["\"3\""], none⟩, ⟨"ab.zones", none, some ["x."]⟩]
      = .error (.catalogZoneError msg)) ∧
    get_catz_zones ([] ++ ⟨"version", some ["\"2\""], none⟩
        :: [⟨"ab.zones", none, some ["x."]⟩])
      = get_catz_zones ([] ++ [⟨"ab.zones", none, some ["x."]⟩]) :=
  ⟨(C4_version_gate.1
      [⟨"version", some ["\"3\""], none⟩, ⟨"ab.zones", none, some ["x."]⟩]
      "\"3\"" [] none (List.mem_cons_self _ _)
      (by
        intro v hv
        rw [show get_catz_version "\"3\"" = some 3 from by decide] at hv
        injection hv with hv
        subst hv
        decide)).2
      (by
        intro n hn
        rcases List.mem_cons.mp hn with rfl | hn'
        · intro h
          decide
        · rcases List.mem_cons.mp hn' with rfl | hn''
          · intro h
            cases h
          · cases hn''),
   C4_version_gate.2 [] [⟨"ab.zones", none, some ["x."]⟩] "\"2\"" [] none
     (by decide)⟩

/-- C5 counterexample: a `.zones` node with zero PTR records (no PTR
rdataset) makes `get_catz_zones` raise the Python `TypeError` of
`len(None)`, not the catalog-format error "Broken catalog zone (PTR)" as
the claim states for every non-1 cardinality. -/
theorem C5_counterexample :
    get_catz_zones [⟨"aa.zones", none, none⟩] = .error CatzError.typeError ∧
    (Except.error CatzError.typeError : Except CatzError (List String))
      ≠ .error (.catalogZoneError "Broken catalog zone (PTR)") :=
  ⟨by decide, by decide⟩

/-- C5 (amended): for a node whose name ends in `.zones` (and is not
`version` and does not start with `group.`, `coo.` or `serial.`): with
exactly one PTR record the dot-stripped target joins the member set; with
two or more PTR records the interpreter raises the catalog-format error
"Broken catalog zone (PTR)"; with no PTR rdataset it raises an uncaught
`TypeError` (`len(None)`), not the catalog-format error. -/
theorem C5_zones_node_ptr_cardinality :
    ∀ (zones : List String) (nm : String) (tx pt : Option (List String)),
      nm ≠ "version" →
      pyStartsWith nm "group." = false →
      pyStartsWith nm "coo." = false →
      pyStartsWith nm "serial." = false →
      pyEndsWith nm ".zones" = true →
      (∀ t, pt = some [t] →
        processNode zones ⟨nm, tx, pt⟩ = .ok (setAdd zones (rstripDots t))) ∧
      (∀ ptrs, pt = some ptrs → ptrs.length ≠ 1 →
        processNode zones ⟨nm, tx, pt⟩
          = .error (.catalogZoneError "Broken catalog zone (PTR)")) ∧
      (pt = none → processNode zones ⟨nm, tx, pt⟩ = .error .typeError) := by
  intro zones nm tx pt h1 h2 h3 h4 h5
  refine ⟨?_, ?_, ?_⟩
  · rintro t rfl
    rw [processNode_zones_node zones nm tx _ h1 h2 h3 h4 h5]
    simp
  · rintro ptrs rfl hl
    rw [processNode_zones_node zones nm tx _ h1 h2 h3 h4 h5]
    simp [hl]
  · rintro rfl
    rw [processNode_zones_node zones nm tx _ h1 h2 h3 h4 h5]

/-- Witness for the amended C5 at concrete nodes: one PTR adds the member,
two PTRs raise the catalog-format error, a missing PTR rdataset raises the
TypeError. -/
theorem C5_zones_node_ptr_cardinality_witness :
    processNode [] ⟨"ab.zones", none, some ["example.com."]⟩
      = .ok ["example.com"] ∧
    processNode [] ⟨"ab.zones", none, some ["a.", "b."]⟩
      = .error (.catalogZoneError "Broken catalog zone (PTR)") ∧
    processNode [] ⟨"ab.zones", none, none⟩ = .error .typeError :=
  ⟨by
    rw [(C5_zones_node_ptr_cardinality [] "ab.zones" none (some ["example.com."])
      (by decide) (by decide) (by decide) (by decide) (by decide)).1
      "example.com." rfl]
    decide,
   (C5_zones_node_ptr_cardinality [] "ab.zones" none (some ["a.", "b."])
      (by decide) (by decide) (by decide) (by decide) (by decide)).2.1
      ["a.", "b."] rfl (by decide),
   (C5_zones_node_ptr_cardinality [] "ab.zones" none none
      (by decide) (by decide) (by decide) (by decide) (by decide)).2.2 rfl⟩

/-- C9: a version TXT record whose presentation is not exactly a quoted
decimal run (`"\d+"` in full) decodes to `None`
(`get_catz_version s = none` iff `s` lacks the quoted-digits shape), and a
catalog whose version node carries such a record is rejected with an
error — a malformed version value is never silently accepted. -/
theorem C9_malformed_version_rejected :
    (∀ s : String, get_catz_version s = none ↔
      ¬ ∃ ds : List Char, ds ≠ [] ∧ ds.all Char.isDigit = true ∧
        s.data = '"' :: (ds ++ ['"'])) ∧
    (∀ (nodes : List CatzNode) (rr : String) (rest : List String)
      (pt : Option (List String)),
      (⟨"version", some (rr :: rest), pt⟩ : CatzNode) ∈ nodes →
      get_catz_version rr = none →
      ∃ e, get_catz_zones nodes = .error e) := by
  constructor
  · intro s
    constructor
    · rintro h ⟨ds, hne, hdig, heq⟩
      rw [get_catz_version_of_shape heq hne hdig] at h
      cases h
    · intro hno
      cases hg : get_catz_version s with
      | none => rfl
      | some v => exact absurd (get_catz_version_some_shape hg) hno
  · intro nodes rr rest pt hmem hnone
    have herr : ∀ zones, ∃ e,
        processNode zones ⟨"version", some (rr :: rest), pt⟩ = .error e :=
      fun zones => ⟨_, processNode_version_bad zones rr rest pt
        (fun v hv => by rw [hnone] at hv; cases hv)⟩
    exact aux_error_of_mem_error nodes _ herr hmem []

/-- Witness for C9: the two-part TXT value `"a" "b"` has no quoted-decimal
shape, and a catalog with it as its version is rejected. -/
theorem C9_malformed_version_rejected_witness :
    (¬ ∃ ds : List Char, ds ≠ [] ∧ ds.all Char.isDigit = true ∧
      ("\"a\" \"b\"" : String).data = '"' :: (ds ++ ['"'])) ∧
    ∃ e, get_catz_zones [⟨"version", some ["\"a\" \"b\""], none⟩]
      = .error e :=
  ⟨(C9_malformed_version_rejected.1 "\"a\" \"b\"").mp (by decide),
   C9_malformed_version_rejected.2
     [⟨"version", some ["\"a\" \"b\""], none⟩] "\"a\" \"b\"" [] none
     (List.mem_cons_self _ _) (by decide)⟩

/-! ## Lemmas about the multi-catalog validator -/

lemma setAdd_idem (l : List String) (x : String) :
    setAdd (setAdd l x) x = setAdd l x := by
  unfold setAdd
  by_cases h : x ∈ l
  · simp [h]
  · simp [h]

/-- The owning origins of zone `z`, in scan order, deduplicated: the
reference semantics the `zone2catalogs` dict fold is compared against. -/
def zoneOwners (czs : List CatalogZone) (z : String) : List String :=
  ((czs.filter (fun cz => z ∈ cz.zones)).map CatalogZone.origin).foldl setAdd []

lemma dictFind_cons (k : String) (v : List String)
    (t : List (String × List String)) (z : String) :
    dictFind ((k, v) :: t) z = if k = z then some v else dictFind t z := by
  unfold dictFind
  rw [List.find?_cons]
  by_cases h : k = z
  · simp [h]
  · simp [h]

lemma dictFind_map_update {m : List (String × List String)} (w o : String)
    {z : String} (hne : z ≠ w) :
    dictFind (m.map (fun p => if p.1 = w then (p.1, setAdd p.2 o) else p)) z
      = dictFind m z := by
  induction m with
  | nil => rfl
  | cons a t ih =>
    obtain ⟨k, v⟩ := a
    rw [List.map_cons]
    dsimp only
    by_cases hkw : k = w
    · rw [if_pos hkw, dictFind_cons, dictFind_cons]
      have hkz : ¬ k = z := by rw [hkw]; exact fun h => hne h.symm
      rw [if_neg hkz, if_neg hkz]
      exact ih
    · rw [if_neg hkw, dictFind_cons, dictFind_cons]
      by_cases hkz : k = z
      · rw [if_pos hkz, if_pos hkz]
      · rw [if_neg hkz, if_neg hkz]
        exact ih

lemma dictFind_map_update_self {m : List (String × List String)}
    {w : String} {owners : List String} (o : String)
    (hw : dictFind m w = some owners) :
    dictFind (m.map (fun p => if p.1 = w then (p.1, setAdd p.2 o) else p)) w
      = some (setAdd owners o) := by
  induction m with
  | nil => cases hw
  | cons a t ih =>
    obtain ⟨k, v⟩ := a
    rw [dictFind_cons] at hw
    rw [List.map_cons]
    dsimp only
    by_cases hkw : k = w
    · rw [if_pos hkw] at hw ⊢
      injection hw with hw
      rw [dictFind_cons, if_pos hkw, hw]
    · rw [if_neg hkw] at hw ⊢
      rw [dictFind_cons, if_neg hkw]
      exact ih hw

lemma dictFind_append (m₁ m₂ : List (String × List String)) (z : String) :
    dictFind (m₁ ++ m₂) z
      = match dictFind m₁ z with
        | some v => some v
        | none => dictFind m₂ z := by
  induction m₁ with
  | nil => rfl
  | cons a t ih =>
    obtain ⟨k, v⟩ := a
    rw [List.cons_append, dictFind_cons, dictFind_cons]
    by_cases hkz : k = z
    · rw [if_pos hkz, if_pos hkz]
    · rw [if_neg hkz, if_neg hkz]
      exact ih

lemma dictFind_dictAddOwner (m : List (String × List String)) (w o z : String) :
    dictFind (dictAddOwner m w o) z
      = if z = w then some (setAdd ((dictFind m w).getD []) o) else dictFind m z := by
  unfold dictAddOwner
  cases hw : dictFind m w with
  | some owners =>
    by_cases hz : z = w
    · subst hz
      rw [dictFind_map_update_self o hw, hw]
      simp
    · rw [dictFind_map_update w o hz, if_neg hz]
  | none =>
    by_cases hz : z = w
    · subst hz
      rw [dictFind_append, hw, if_pos rfl]
      rw [dictFind_cons, if_pos rfl]
      simp [setAdd]
    · rw [dictFind_append, if_neg hz]
      cases hm : dictFind m z with
      | some v => rfl
      | none =>
        rw [dictFind_cons, if_neg (fun h => hz h.symm)]
        rfl

lemma inner_fold_dictFind (zs : List String) (o : String) :
    ∀ (a : List (String × List String)) (z : String),
    dictFind (zs.foldl (fun acc w => dictAddOwner acc w o) a) z
      = if z ∈ zs then some (setAdd ((dictFind a z).getD []) o) else dictFind a z := by
  induction zs with
  | nil => intro a z; simp
  | cons w t ih =>
    intro a z
    rw [List.foldl_cons, ih (dictAddOwner a w o) z, dictFind_dictAddOwner]
    by_cases hzw : z = w
    · subst hzw
      by_cases hzt : z ∈ t <;> simp [hzt, setAdd_idem]
    · by_cases hzt : z ∈ t <;> simp [hzw, hzt, List.mem_cons]

lemma zone2catalogs_fold_dictFind (czs : List CatalogZone) :
    ∀ (acc : List (String × List String)) (z : String),
    dictFind (czs.foldl (fun acc cz =>
        cz.zones.foldl (fun a w => dictAddOwner a w cz.origin) acc) acc) z
      = ((czs.filter (fun cz => z ∈ cz.zones)).map CatalogZone.origin).foldl
          (fun r o => some (setAdd (r.getD []) o)) (dictFind acc z) := by
  induction czs with
  | nil => intro acc z; rfl
  | cons cz rest ih =>
    intro acc z
    rw [List.foldl_cons, ih, inner_fold_dictFind]
    by_cases hz : z ∈ cz.zones
    · rw [if_pos hz, List.filter_cons_of_pos (by simpa using hz), List.map_cons,
        List.foldl_cons]
    · rw [if_neg hz, List.filter_cons_of_neg (by simpa using hz)]

lemma fold_some_owners (os : List String) (l : List String) :
    os.foldl (fun r o => some (setAdd (r.getD []) o)) (some l)
      = some (os.foldl setAdd l) := by
  induction os generalizing l with
  | nil => rfl
  | cons o t ih =>
    rw [List.foldl_cons, List.foldl_cons]
    exact ih (setAdd l o)

lemma dictFind_zone2catalogs (czs : List CatalogZone) (z : String) :
    dictFind (zone2catalogs czs) z
      = if (czs.filter (fun cz => z ∈ cz.zones)).map CatalogZone.origin = []
        then none else some (zoneOwners czs z) := by
  unfold zone2catalogs zoneOwners
  rw [zone2catalogs_fold_dictFind czs [] z]
  cases hos : (czs.filter (fun cz => z ∈ cz.zones)).map CatalogZone.origin with
  | nil => rfl
  | cons o t =>
    rw [List.foldl_cons, fold_some_owners]
    simp [dictFind, List.foldl_cons]

/-- The keys of the dict, in order. -/
def dictKeys (m : List (String × List String)) : List String :=
  m.map Prod.fst

lemma dictKeys_map_update (m : List (String × List String)) (w o : String) :
    dictKeys (m.map (fun p => if p.1 = w then (p.1, setAdd p.2 o) else p))
      = dictKeys m := by
  unfold dictKeys
  rw [List.map_map]
  apply List.map_congr_left
  intro p _
  by_cases hp : p.1 = w
  · simp [hp]
  · simp [hp]

lemma dictFind_eq_none_not_key {m : List (String × List String)} {w : String}
    (h : dictFind m w = none) : w ∉ dictKeys m := by
  unfold dictFind at h
  rw [Option.map_eq_none'] at h
  rw [List.find?_eq_none] at h
  intro hw
  obtain ⟨p, hp, hpw⟩ := List.mem_map.mp hw
  exact absurd (by simpa using hpw) (by simpa using h p hp)

lemma nodup_dictKeys_dictAddOwner {m : List (String × List String)}
    (hm : (dictKeys m).Nodup) (w o : String) :
    (dictKeys (dictAddOwner m w o)).Nodup := by
  unfold dictAddOwner
  cases hw : dictFind m w with
  | some owners => rw [dictKeys_map_update]; exact hm
  | none =>
    have hnk := dictFind_eq_none_not_key hw
    unfold dictKeys
    rw [List.map_append]
    rw [List.nodup_append]
    exact ⟨hm, List.nodup_singleton w, by
      intro x hx hx'
      simp only [List.map_cons, List.map_nil, List.mem_singleton] at hx'
      exact hnk (hx' ▸ hx)⟩

lemma nodup_dictKeys_inner_fold (zs : List String) (o : String) :
    ∀ a, (dictKeys a).Nodup →
    (dictKeys (zs.foldl (fun acc w => dictAddOwner acc w o) a)).Nodup := by
  induction zs with
  | nil => intro a h; exact h
  | cons w t ih =>
    intro a h
    rw [List.foldl_cons]
    exact ih _ (nodup_dictKeys_dictAddOwner h w o)

lemma nodup_dictKeys_zone2catalogs (czs : List CatalogZone) :
    (dictKeys (zone2catalogs czs)).Nodup := by
  unfold zone2catalogs
  have h : ∀ acc, (dictKeys acc).Nodup →
      (dictKeys (czs.foldl (fun acc cz =>
        cz.zones.foldl (fun a w => dictAddOwner a w cz.origin) acc) acc)).Nodup := by
    induction czs with
    | nil => intro acc h; exact h
    | cons cz rest ih =>
      intro acc h
      rw [List.foldl_cons]
      exact ih _ (nodup_dictKeys_inner_fold cz.zones cz.origin acc h)
  exact h [] (by simp [dictKeys])

lemma dictFind_mem {m : List (String × List String)} {z : String} {v : List String}
    (h : dictFind m z = some v) : (z, v) ∈ m := by
  induction m with
  | nil => cases h
  | cons a t ih =>
    obtain ⟨k, w⟩ := a
    rw [dictFind_cons] at h
    by_cases hk : k = z
    · rw [if_pos hk] at h
      injection h with h
      subst hk h
      exact List.mem_cons_self _ _
    · rw [if_neg hk] at h
      exact List.mem_cons_of_mem _ (ih h)

lemma mem_dictFind :
    ∀ (m : List (String × List String)), (dictKeys m).Nodup →
    ∀ {z : String} {v : List String}, (z, v) ∈ m → dictFind m z = some v := by
  intro m
  induction m with
  | nil => intro _ z v h; cases h
  | cons a t ih =>
    intro hnd z v h
    obtain ⟨k, w⟩ := a
    rw [dictFind_cons]
    rcases List.mem_cons.mp h with heq | hmem
    · obtain ⟨h1, h2⟩ := Prod.mk.injEq .. ▸ heq.symm
      rw [if_pos h1, h2]
    · by_cases hk : k = z
      · exfalso
        have hz : z ∈ dictKeys t := List.mem_map_of_mem Prod.fst hmem
        have : k ∉ dictKeys t := by
          have := hnd
          unfold dictKeys at this
          rw [List.map_cons] at this
          exact (List.nodup_cons.mp this).1
        exact this (hk ▸ hz)
      · rw [if_neg hk]
        refine ih ?_ hmem
        have := hnd
        unfold dictKeys at this ⊢
        rw [List.map_cons] at this
        exact (List.nodup_cons.mp this).2

/-- C6: `ensure_unique_zones` raises exactly when some zone is owned by more
than one catalog origin; before raising it reports every conflicting zone
together with all of its owning origins (collect-all), and it reports only
genuine conflicts; when every zone has at most one owner it returns without
error. -/
theorem C6_ensure_unique_zones_spec :
    ∀ czs : List CatalogZone,
      ((∃ e, ensure_unique_zones czs = .error e) ↔
        ∃ z, 1 < (zoneOwners czs z).length) ∧
      (∀ z, 1 < (zoneOwners czs z).length →
        (z, zoneOwners czs z) ∈ duplicate_zone_errors czs) ∧
      (∀ p ∈ duplicate_zone_errors czs,
        p.2 = zoneOwners czs p.1 ∧ 1 < (zoneOwners czs p.1).length) ∧
      ((∀ z, (zoneOwners czs z).length ≤ 1) → ensure_unique_zones czs = .ok ()) := by
  intro czs
  have hsound : ∀ p ∈ duplicate_zone_errors czs,
      p.2 = zoneOwners czs p.1 ∧ 1 < (zoneOwners czs p.1).length := by
    intro p hp
    obtain ⟨z, v⟩ := p
    obtain ⟨hpm, hcond⟩ := List.mem_filter.mp hp
    have hfind : dictFind (zone2catalogs czs) z = some v :=
      mem_dictFind _ (nodup_dictKeys_zone2catalogs czs) hpm
    rw [dictFind_zone2catalogs] at hfind
    split_ifs at hfind with hnil
    rw [Option.some.injEq] at hfind
    subst hfind
    exact ⟨rfl, by simpa using hcond⟩
  have hcomplete : ∀ z, 1 < (zoneOwners czs z).length →
      (z, zoneOwners czs z) ∈ duplicate_zone_errors czs := by
    intro z hz
    have hne : (czs.filter (fun cz => z ∈ cz.zones)).map CatalogZone.origin ≠ [] := by
      intro h
      rw [zoneOwners, h] at hz
      simp at hz
    have hfind : dictFind (zone2catalogs czs) z = some (zoneOwners czs z) := by
      rw [dictFind_zone2catalogs, if_neg hne]
    exact List.mem_filter.mpr ⟨dictFind_mem hfind, by simpa using hz⟩
  refine ⟨⟨?_, ?_⟩, hcomplete, hsound, ?_⟩
  · rintro ⟨e, he⟩
    unfold ensure_unique_zones at he
    split_ifs at he with hnil
    obtain ⟨p, hp⟩ := List.exists_mem_of_ne_nil _ hnil
    exact ⟨p.1, (hsound p hp).2⟩
  · rintro ⟨z, hz⟩
    have hmem := hcomplete z hz
    unfold ensure_unique_zones
    split_ifs with hnil
    · rw [hnil] at hmem
      cases hmem
    · exact ⟨_, rfl⟩
  · intro hle
    unfold ensure_unique_zones
    split_ifs with hnil
    · rfl
    · exfalso
      obtain ⟨p, hp⟩ := List.exists_mem_of_ne_nil _ hnil
      exact absurd (hsound p hp).2 (by simpa using Nat.not_lt.mpr (hle p.1))

/-- Witness for C6 on the spec's example: catalogs `A = {x, y}` and
`B = {y, z}` conflict on `y`, the report names `y` with owners `A` and `B`,
and a conflict-free configuration validates. -/
theorem C6_ensure_unique_zones_spec_witness :
    (∃ e, ensure_unique_zones
      [⟨"A", "p", ["x", "y"]⟩, ⟨"B", "p", ["y", "z"]⟩] = .error e) ∧
    ("y", zoneOwners [⟨"A", "p", ["x", "y"]⟩, ⟨"B", "p", ["y", "z"]⟩] "y")
      ∈ duplicate_zone_errors [⟨"A", "p", ["x", "y"]⟩, ⟨"B", "p", ["y", "z"]⟩] ∧
    zoneOwners [⟨"A", "p", ["x", "y"]⟩, ⟨"B", "p", ["y", "z"]⟩] "y" = ["A", "B"] ∧
    ensure_unique_zones [⟨"A", "p", ["x"]⟩] = .ok () :=
  ⟨(C6_ensure_unique_zones_spec
      [⟨"A", "p", ["x", "y"]⟩, ⟨"B", "p", ["y", "z"]⟩]).1.mpr ⟨"y", by decide⟩,
   (C6_ensure_unique_zones_spec
      [⟨"A", "p", ["x", "y"]⟩, ⟨"B", "p", ["y", "z"]⟩]).2.1 "y" (by decide),
   by decide,
   (C6_ensure_unique_zones_spec [⟨"A", "p", ["x"]⟩]).2.2.2 (by
     intro z
     unfold zoneOwners
     by_cases h : z ∈ (⟨"A", "p", ["x"]⟩ : CatalogZone).zones
     · rw [List.filter_cons_of_pos (by simpa using h), List.filter_nil]
       simp [setAdd]
     · rw [List.filter_cons_of_neg (by simpa using h), List.filter_nil]
       simp)⟩

/-! ## Lemmas about the zone-set reconciler -/

/-- The pattern the desired state assigns to zone `z`: the pattern of the
first (with disjoint catalogs, the only) catalog containing `z`. -/
def desiredPattern (czs : List CatalogZone) (z : String) : Option String :=
  czs.findSome? (fun cz => if z ∈ cz.zones then some cz.pattern else none)

lemma desiredPattern_eq_none {czs : List CatalogZone} {z : String}
    (h : ∀ cz ∈ czs, z ∉ cz.zones) : desiredPattern czs z = none := by
  induction czs with
  | nil => rfl
  | cons cz rest ih =>
    unfold desiredPattern
    rw [List.findSome?_cons]
    rw [if_neg (h cz (List.mem_cons_self cz rest))]
    exact ih (fun c hc => h c (List.mem_cons_of_mem cz hc))

/-- Where each emitted operation of `reconcileCatalog` gets its zone. -/
lemma reconcileCatalog_op_zone (current : List (String × String))
    (cz : CatalogZone) (w : String) (o : NsdOp)
    (h : (match lookupPattern current w with
      | none => some (NsdOp.addzone w cz.pattern)
      | some p => if cz.pattern ≠ p then some (NsdOp.changezone w cz.pattern)
          else none) = some o) :
    o.zone = w := by
  cases hl : lookupPattern current w with
  | none =>
    rw [hl] at h
    injection h with h
    rw [← h]
    rfl
  | some p =>
    rw [hl] at h
    simp only at h
    split_ifs at h
    injection h with h
    rw [← h]
    rfl

lemma filter_zone_filterMap {f : String → Option NsdOp}
    (hf : ∀ w o, f w = some o → o.zone = w) (z : String) :
    ∀ l : List String, l.Nodup →
    (l.filterMap f).filter (fun o => o.zone = z)
      = if z ∈ l then (f z).toList else [] := by
  intro l
  induction l with
  | nil => intro _; simp
  | cons w t ih =>
    intro hnd
    obtain ⟨hwt, hndt⟩ := List.nodup_cons.mp hnd
    rw [List.filterMap_cons]
    cases hfw : f w with
    | none =>
      rw [ih hndt]
      by_cases hzw : z = w
      · subst hzw
        rw [if_neg hwt, if_pos (List.mem_cons_self z t), hfw]
        rfl
      · by_cases hzt : z ∈ t
        · rw [if_pos hzt, if_pos (List.mem_cons_of_mem w hzt)]
        · rw [if_neg hzt, if_neg (by
            intro hc
            rcases List.mem_cons.mp hc with h' | h'
            exacts [hzw h', hzt h'])]
    | some o =>
      have hoz := hf w o hfw
      rw [List.filter_cons]
      by_cases hzw : z = w
      · subst hzw
        rw [if_pos (by simpa using hoz), ih hndt, if_neg hwt,
          if_pos (List.mem_cons_self z t), hfw]
        rfl
      · rw [if_neg (by
          simp only [decide_eq_true_eq]
          rw [hoz]
          exact fun h => hzw h.symm)]
        rw [ih hndt]
        by_cases hzt : z ∈ t
        · rw [if_pos hzt, if_pos (List.mem_cons_of_mem w hzt)]
        · rw [if_neg hzt, if_neg (by
            intro hc
            rcases List.mem_cons.mp hc with h' | h'
            exacts [hzw h', hzt h'])]

lemma desiredPattern_cons (cz : CatalogZone) (rest : List CatalogZone) (z : String) :
    desiredPattern (cz :: rest) z
      = if z ∈ cz.zones then some cz.pattern else desiredPattern rest z := by
  by_cases hz : z ∈ cz.zones <;> simp [desiredPattern, List.findSome?_cons, hz]

lemma filter_zone_reconcileCatalog (current : List (String × String))
    (cz : CatalogZone) (z : String) (hnd : cz.zones.Nodup) :
    (reconcileCatalog current cz).filter (fun o => o.zone = z)
      = if z ∈ cz.zones then
          (match lookupPattern current z with
            | none => [NsdOp.addzone z cz.pattern]
            | some p => if cz.pattern ≠ p then [NsdOp.changezone z cz.pattern] else [])
        else [] := by
  unfold reconcileCatalog
  rw [filter_zone_filterMap (reconcileCatalog_op_zone current cz) z cz.zones hnd]
  by_cases hz : z ∈ cz.zones
  · rw [if_pos hz, if_pos hz]
    cases hl : lookupPattern current z with
    | none => simp
    | some p =>
      by_cases hp : cz.pattern ≠ p
      · simp [hp]
      · rw [not_not] at hp
        simp [hp]
  · rw [if_neg hz, if_neg hz]

lemma filter_zone_flatMap_reconcile (current : List (String × String)) (z : String) :
    ∀ czs : List CatalogZone, (∀ cz ∈ czs, cz.zones.Nodup) →
    czs.Pairwise (fun a b => ∀ w, w ∈ a.zones → w ∉ b.zones) →
    (czs.flatMap (reconcileCatalog current)).filter (fun o => o.zone = z)
      = match desiredPattern czs z with
        | none => []
        | some pat =>
          match lookupPattern current z with
          | none => [NsdOp.addzone z pat]
          | some p => if pat ≠ p then [NsdOp.changezone z pat] else [] := by
  intro czs
  induction czs with
  | nil => intro _ _; rfl
  | cons cz rest ih =>
    intro hnd hpw
    obtain ⟨hhead, htail⟩ := List.pairwise_cons.mp hpw
    rw [List.flatMap_cons, List.filter_append,
      filter_zone_reconcileCatalog current cz z (hnd cz (List.mem_cons_self cz rest)),
      desiredPattern_cons]
    by_cases hz : z ∈ cz.zones
    · rw [if_pos hz, if_pos hz]
      have h1 : (rest.flatMap (reconcileCatalog current)).filter
          (fun o => o.zone = z) = [] := by
        rw [ih (fun c hc => hnd c (List.mem_cons_of_mem cz hc)) htail,
          desiredPattern_eq_none (fun c hc => hhead c hc z hz)]
      rw [h1, List.append_nil]
    · rw [if_neg hz, if_neg hz, List.nil_append]
      exact ih (fun c hc => hnd c (List.mem_cons_of_mem cz hc)) htail

lemma desiredPattern_some_mem {czs : List CatalogZone} {z pat : String}
    (h : desiredPattern czs z = some pat) : z ∈ czs.flatMap CatalogZone.zones := by
  induction czs with
  | nil => cases h
  | cons cz rest ih =>
    rw [desiredPattern_cons] at h
    rw [List.flatMap_cons, List.mem_append]
    by_cases hz : z ∈ cz.zones
    · exact Or.inl hz
    · rw [if_neg hz] at h
      exact Or.inr (ih h)

lemma desiredPattern_none_not_mem {czs : List CatalogZone} {z : String}
    (h : desiredPattern czs z = none) : z ∉ czs.flatMap CatalogZone.zones := by
  induction czs with
  | nil => simp
  | cons cz rest ih =>
    rw [desiredPattern_cons] at h
    rw [List.flatMap_cons, List.mem_append]
    by_cases hz : z ∈ cz.zones
    · rw [if_pos hz] at h
      cases h
    · rw [if_neg hz] at h
      exact fun hc => hc.elim hz (ih h)

lemma lookupPattern_some_mem {current : List (String × String)} {z p : String}
    (h : lookupPattern current z = some p) : z ∈ current.map Prod.fst := by
  unfold lookupPattern at h
  rw [Option.map_eq_some'] at h
  obtain ⟨q, hq, hqp⟩ := h
  have hmem := List.mem_of_find?_eq_some hq
  have hkey : q.1 = z := by simpa using List.find?_some hq
  exact hkey ▸ List.mem_map_of_mem Prod.fst hmem

lemma lookupPattern_none_not_mem {current : List (String × String)} {z : String}
    (h : lookupPattern current z = none) : z ∉ current.map Prod.fst := by
  unfold lookupPattern at h
  rw [Option.map_eq_none'] at h
  rw [List.find?_eq_none] at h
  intro hc
  obtain ⟨q, hq, hqz⟩ := List.mem_map.mp hc
  exact absurd (by simpa using hqz) (by simpa using h q hq)

lemma filter_key_once (q : String → Bool) (z : String) :
    ∀ l : List String, l.Nodup →
    (l.filter q).filter (fun w => w = z)
      = if z ∈ l ∧ q z = true then [z] else [] := by
  intro l
  induction l with
  | nil => intro _; simp
  | cons w t ih =>
    intro hnd
    obtain ⟨hwt, hndt⟩ := List.nodup_cons.mp hnd
    rw [List.filter_cons]
    by_cases hq : q w = true
    · rw [if_pos hq, List.filter_cons]
      by_cases hzw : w = z
      · subst hzw
        rw [if_pos (by simp), ih hndt,
          if_neg (fun hc => hwt hc.1),
          if_pos ⟨List.mem_cons_self w t, hq⟩]
      · rw [if_neg (by simpa using hzw), ih hndt]
        by_cases hc : z ∈ t ∧ q z = true
        · rw [if_pos hc, if_pos ⟨List.mem_cons_of_mem _ hc.1, hc.2⟩]
        · rw [if_neg hc, if_neg (fun hc' =>
            hc ⟨(List.mem_cons.mp hc'.1).resolve_left (fun e => hzw e.symm), hc'.2⟩)]
    · rw [if_neg hq, ih hndt]
      by_cases hzw : z = w
      · subst hzw
        rw [if_neg (fun hc => hwt hc.1), if_neg (fun hc => hq hc.2)]
      · by_cases hc : z ∈ t ∧ q z = true
        · rw [if_pos hc, if_pos ⟨List.mem_cons_of_mem _ hc.1, hc.2⟩]
        · rw [if_neg hc, if_neg (fun hc' =>
            hc ⟨(List.mem_cons.mp hc'.1).resolve_left hzw, hc'.2⟩)]

lemma filter_zone_dels (current : List (String × String)) (czs : List CatalogZone)
    (z : String) (hnd : (current.map Prod.fst).Nodup) :
    ((((current.map Prod.fst).filter
        (fun w => w ∉ czs.flatMap CatalogZone.zones)).map NsdOp.delzone).filter
      (fun o => o.zone = z))
      = if z ∈ current.map Prod.fst ∧ z ∉ czs.flatMap CatalogZone.zones
        then [NsdOp.delzone z] else [] := by
  rw [List.filter_map]
  have hcomp : ((fun o : NsdOp => decide (o.zone = z)) ∘ NsdOp.delzone)
      = fun w => decide (w = z) := by
    funext w
    rfl
  rw [hcomp, filter_key_once _ z _ hnd]
  by_cases hc : z ∈ current.map Prod.fst ∧ z ∉ czs.flatMap CatalogZone.zones
  · rw [if_pos ⟨hc.1, by simpa using hc.2⟩, if_pos hc]
    rfl
  · rw [if_neg (fun hc' => hc ⟨hc'.1, by simpa using hc'.2⟩), if_neg hc]
    rfl

/-! ## Claims about the zone-set reconciler -/

/-- C1: under the validated preconditions (each catalog's member set free of
duplicates, catalogs pairwise disjoint, current mapping a dict), the
reconciliation pass classifies every zone name exactly once: the commands
of the plan that target a zone `z` are exactly one `addzone z p` when `z` is
desired with pattern `p` but not current, exactly one `changezone z p` when
`z` is in both with differing patterns, none when the patterns agree, and
exactly one `delzone z` when `z` is only current; a zone in neither mapping
is never targeted. -/
theorem C1_reconcile_partition :
    ∀ (czs : List CatalogZone) (current : List (String × String)) (z : String),
      (∀ cz ∈ czs, cz.zones.Nodup) →
      czs.Pairwise (fun a b => ∀ w, w ∈ a.zones → w ∉ b.zones) →
      (current.map Prod.fst).Nodup →
      (reconcile czs current).filter (fun o => o.zone = z)
        = match desiredPattern czs z, lookupPattern current z with
          | some pat, none => [NsdOp.addzone z pat]
          | some pat, some p => if pat ≠ p then [NsdOp.changezone z pat] else []
          | none, some _ => [NsdOp.delzone z]
          | none, none => [] := by
  intro czs current z hnds hpw hndc
  unfold reconcile
  rw [List.filter_append, filter_zone_flatMap_reconcile current z czs hnds hpw,
    filter_zone_dels current czs z hndc]
  cases hd : desiredPattern czs z with
  | some pat =>
    rw [if_neg (fun hc => hc.2 (desiredPattern_some_mem hd))]
    cases hl : lookupPattern current z with
    | none => rfl
    | some p => simp
  | none =>
    rw [List.nil_append]
    cases hl : lookupPattern current z with
    | some p =>
      rw [if_pos ⟨lookupPattern_some_mem hl, desiredPattern_none_not_mem hd⟩]
    | none =>
      rw [if_neg (fun hc => lookupPattern_none_not_mem hl hc.1)]

/-- Witness for C1 on the spec's end-to-end example: desired
`{a.com: p1, b.com: p1}` (one catalog), current `{b.com: p1, c.com: p2}`;
`a.com` is classified Add, `b.com` NoOp, `c.com` Delete, and an unrelated
zone is untouched. -/
theorem C1_reconcile_partition_witness :
    (reconcile [⟨"o", "p1", ["a.com", "b.com"]⟩] [("b.com", "p1"), ("c.com", "p2")]).filter
        (fun o => o.zone = "a.com") = [NsdOp.addzone "a.com" "p1"] ∧
    (reconcile [⟨"o", "p1", ["a.com", "b.com"]⟩] [("b.com", "p1"), ("c.com", "p2")]).filter
        (fun o => o.zone = "b.com") = [] ∧
    (reconcile [⟨"o", "p1", ["a.com", "b.com"]⟩] [("b.com", "p1"), ("c.com", "p2")]).filter
        (fun o => o.zone = "c.com") = [NsdOp.delzone "c.com"] ∧
    (reconcile [⟨"o", "p1", ["a.com", "b.com"]⟩] [("b.com", "p1"), ("c.com", "p2")]).filter
        (fun o => o.zone = "x.com") = [] := by
  refine ⟨?_, ?_, ?_, ?_⟩ <;>
    rw [C1_reconcile_partition _ _ _
      (by decide) (List.pairwise_singleton _ _) (by decide)] <;> decide

/-- The desired zone→pattern mapping induced by a list of catalogs: each
member zone paired with its catalog's pattern. -/
def desiredMap (czs : List CatalogZone) : List (String × String) :=
  czs.flatMap (fun cz => cz.zones.map (fun z => (z, cz.pattern)))

lemma lookupPattern_cons (k v : String) (t : List (String × String)) (z : String) :
    lookupPattern ((k, v) :: t) z = if k = z then some v else lookupPattern t z := by
  unfold lookupPattern
  rw [List.find?_cons]
  by_cases h : k = z
  · simp [h]
  · simp [h]

lemma lookupPattern_append (m₁ m₂ : List (String × String)) (z : String) :
    lookupPattern (m₁ ++ m₂) z
      = match lookupPattern m₁ z with
        | some v => some v
        | none => lookupPattern m₂ z := by
  induction m₁ with
  | nil => rfl
  | cons a t ih =>
    obtain ⟨k, v⟩ := a
    rw [List.cons_append, lookupPattern_cons, lookupPattern_cons]
    by_cases hkz : k = z
    · rw [if_pos hkz, if_pos hkz]
    · rw [if_neg hkz, if_neg hkz]
      exact ih

lemma lookupPattern_block_mem {zs : List String} {z : String} (pat : String)
    (h : z ∈ zs) :
    lookupPattern (zs.map (fun w => (w, pat))) z = some pat := by
  induction zs with
  | nil => cases h
  | cons w t ih =>
    rw [List.map_cons, lookupPattern_cons]
    by_cases hwz : w = z
    · rw [if_pos hwz]
    · rw [if_neg hwz]
      exact ih ((List.mem_cons.mp h).resolve_left (fun e => hwz e.symm))

lemma lookupPattern_block_not_mem {zs : List String} {z : String} (pat : String)
    (h : z ∉ zs) :
    lookupPattern (zs.map (fun w => (w, pat))) z = none := by
  induction zs with
  | nil => rfl
  | cons w t ih =>
    rw [List.map_cons, lookupPattern_cons,
      if_neg (fun e => h (by rw [← e]; exact List.mem_cons_self w t))]
    exact ih (fun hc => h (List.mem_cons_of_mem w hc))

lemma lookupPattern_desiredMap :
    ∀ (czs : List CatalogZone),
      czs.Pairwise (fun a b => ∀ w, w ∈ a.zones → w ∉ b.zones) →
      ∀ {cz : CatalogZone}, cz ∈ czs → ∀ {zone : String}, zone ∈ cz.zones →
      lookupPattern (desiredMap czs) zone = some cz.pattern := by
  intro czs
  induction czs with
  | nil => intro _ cz h; cases h
  | cons c rest ih =>
    intro hpw cz hcz zone hz
    obtain ⟨hhead, htail⟩ := List.pairwise_cons.mp hpw
    unfold desiredMap
    rw [List.flatMap_cons, lookupPattern_append]
    rcases List.mem_cons.mp hcz with rfl | hcz'
    · rw [lookupPattern_block_mem cz.pattern hz]
    · have hznc : zone ∉ c.zones := fun hc => hhead cz hcz' zone hc hz
      rw [lookupPattern_block_not_mem c.pattern hznc]
      exact ih htail hcz' hz

/-- C2: reconciling a desired state against itself is a no-op — with
`current` equal to the mapping induced by the (disjoint) catalogs, the plan
is empty: no addzone, changezone or delzone at all. -/
theorem C2_reconcile_idempotent :
    ∀ czs : List CatalogZone,
      czs.Pairwise (fun a b => ∀ w, w ∈ a.zones → w ∉ b.zones) →
      reconcile czs (desiredMap czs) = [] := by
  intro czs hpw
  unfold reconcile
  rw [List.append_eq_nil]
  constructor
  · rw [List.flatMap_eq_nil_iff]
    intro cz hcz
    unfold reconcileCatalog
    rw [List.filterMap_eq_nil_iff]
    intro zone hz
    rw [lookupPattern_desiredMap czs hpw hcz hz]
    simp
  · rw [List.map_eq_nil_iff, List.filter_eq_nil_iff]
    intro w hw
    simp only [decide_eq_true_eq, not_not]
    obtain ⟨q, hq, hqw⟩ := List.mem_map.mp hw
    obtain ⟨cz, hcz, hqb⟩ := List.mem_flatMap.mp hq
    obtain ⟨zone, hzone, hzq⟩ := List.mem_map.mp hqb
    rw [List.mem_flatMap]
    refine ⟨cz, hcz, ?_⟩
    have : q.1 = zone := by rw [← hzq]
    rw [← hqw, this]
    exact hzone

/-- Witness for C2 at a concrete two-catalog desired state. -/
theorem C2_reconcile_idempotent_witness :
    reconcile [⟨"A", "p1", ["a.com"]⟩, ⟨"B", "p2", ["b.com"]⟩]
      (desiredMap [⟨"A", "p1", ["a.com"]⟩, ⟨"B", "p2", ["b.com"]⟩]) = [] :=
  C2_reconcile_idempotent _ (by
    refine List.Pairwise.cons ?_ (List.pairwise_singleton _ _)
    intro b hb w hw
    rcases List.mem_singleton.mp hb with rfl
    rcases List.mem_singleton.mp hw with rfl
    decide)

/-- C7: commands are emitted only after validation — a run whose
configuration reading/parsing raises, or whose cross-catalog validation
raises, issues no control command at all. -/
theorem C7_no_commands_on_error :
    ∀ (configResult : Except CatzError (List CatalogZone))
      (current : List (String × String)),
      ((∃ e, configResult = .error e) ∨
        (∃ czs, configResult = .ok czs ∧ ∃ e, ensure_unique_zones czs = .error e)) →
      main_model configResult current = [] := by
  intro cfg current h
  rcases h with ⟨e, rfl⟩ | ⟨czs, rfl, e, he⟩
  · rfl
  · simp [main_model, he]

/-- Witness for C7: a catalog-format error and a duplicate-zone error each
produce an empty command stream. -/
theorem C7_no_commands_on_error_witness :
    main_model (.error (.catalogZoneError "Unsupported catalog zone version (3)"))
      [("a.com", "p1")] = [] ∧
    main_model (.ok [⟨"A", "p1", ["y.com"]⟩, ⟨"B", "p2", ["y.com"]⟩])
      [("a.com", "p1")] = [] :=
  ⟨C7_no_commands_on_error _ _ (Or.inl ⟨_, rfl⟩),
   C7_no_commands_on_error _ _ (Or.inr ⟨_, rfl,
     CatzError.invalidConfigurationError "Duplicate zones found in catalogs",
     by decide⟩)⟩

/-! ## Lemmas about the generator round trip -/

lemma dot_append_data (origin : String) :
    ("." ++ origin).data = '.' :: origin.data := by
  rw [String.data_append]
  rfl

lemma relativizeName_self (origin : String) :
    relativizeName origin origin = "@" := by
  unfold relativizeName
  rw [if_pos rfl]

lemma append_dot_origin_data (x origin : String) :
    (x ++ "." ++ origin).data = x.data ++ ('.' :: origin.data) := by
  rw [String.data_append, String.data_append, List.append_assoc]
  rfl

lemma relativizeName_append (origin x : String) :
    relativizeName origin (x ++ "." ++ origin) = x := by
  have hdata := append_dot_origin_data x origin
  have hlen : (x ++ "." ++ origin).data.length
      = x.data.length + (origin.data.length + 1) := by
    rw [hdata, List.length_append]
    rfl
  have hne : x ++ "." ++ origin ≠ origin := by
    intro h
    have hl := congrArg (fun s : String => s.data.length) h
    simp only at hl
    rw [hlen] at hl
    omega
  have hdot : ("." ++ origin).data.length = origin.data.length + 1 := by
    rw [dot_append_data]
    rfl
  have hcond : (x ++ "." ++ origin).data.drop
      ((x ++ "." ++ origin).data.length - ("." ++ origin).data.length)
      = ("." ++ origin).data := by
    rw [hlen, hdot, Nat.add_sub_cancel, hdata, dot_append_data]
    exact List.drop_left x.data ('.' :: origin.data)
  unfold relativizeName
  rw [if_neg hne, if_pos hcond, hlen, Nat.add_sub_cancel, hdata, List.take_left]

lemma zones_append_data (s : String) :
    (s ++ ".zones").data = s.data ++ (".zones" : String).data := by
  rw [String.data_append]

lemma member_endsWith_zones (s : String) :
    pyEndsWith (s ++ ".zones") ".zones" = true := by
  unfold pyEndsWith
  simp only [decide_eq_true_eq]
  rw [zones_append_data, List.length_append]
  refine ⟨?_, Nat.le_add_left _ _⟩
  rw [Nat.add_sub_cancel]
  exact List.drop_left s.data _

lemma member_name_ne_version (s : String) : s ++ ".zones" ≠ "version" := by
  intro h
  have := member_endsWith_zones s
  rw [h] at this
  exact absurd this (by decide)

lemma member_name_ne_at (s : String) : s ++ ".zones" ≠ "@" := by
  intro h
  have := member_endsWith_zones s
  rw [h] at this
  exact absurd this (by decide)

/-- A name built from a hex-and-dash zone id followed by `.zones` is not
caught by a property branch whose label `pre` has a non-hex-dash first
character, or a non-hex-dash, non-dot second character (this covers
`group.`, `coo.` and `serial.`). -/
lemma member_not_property (s : String) (h1 : ∀ c ∈ s.data, isHexDash c = true)
    {p0 p1 : Char} {prest : List Char} (pre : String)
    (hpre : pre.data = p0 :: p1 :: prest)
    (hno : isHexDash p0 = false ∨ (isHexDash p1 = false ∧ p1 ≠ '.'))
    (hz0 : ¬ ((".zones" : String).data.take pre.data.length = pre.data)) :
    pyStartsWith (s ++ ".zones") pre = false := by
  unfold pyStartsWith
  simp only [decide_eq_false_iff_not]
  intro hc
  rw [zones_append_data] at hc
  cases hs : s.data with
  | nil =>
    rw [hs, List.nil_append] at hc
    exact hz0 hc
  | cons c rest =>
    rw [hs, hpre] at hc
    have hc0 : c = p0 := by
      have h0 := congrArg (fun l' : List Char => (l'.take 1).head?) hc
      simp only at h0
      have e1 : ((List.take (p0 :: p1 :: prest).length
          (c :: (rest ++ (".zones" : String).data))).take 1).head? = some c := rfl
      have e2 : (((p0 :: p1 :: prest) : List Char).take 1).head? = some p0 := rfl
      have h0' : (some c : Option Char) = some p0 := (e1.symm.trans h0).trans e2
      injection h0'
    rcases hno with hp | hp
    · have hhex := h1 c (by rw [hs]; exact List.mem_cons_self c rest)
      rw [hc0, hp] at hhex
      cases hhex
    · have h1' := congrArg (fun l' : List Char => ((l'.drop 1).take 1).head?) hc
      simp only at h1'
      have e2 : ((((p0 :: p1 :: prest) : List Char).drop 1).take 1).head? = some p1 := rfl
      rw [e2] at h1'
      cases hrest : rest with
      | nil =>
        rw [hrest] at h1'
        have e1 : (((List.take (p0 :: p1 :: prest).length
            (c :: ([] ++ (".zones" : String).data))).drop 1).take 1).head?
            = some '.' := rfl
        have h1'' : (some '.' : Option Char) = some p1 := e1.symm.trans h1'
        injection h1'' with h1''
        exact hp.2 h1''.symm
      | cons c2 rest2 =>
        rw [hrest] at h1'
        have e1 : (((List.take (p0 :: p1 :: prest).length
            (c :: (c2 :: rest2 ++ (".zones" : String).data))).drop 1).take 1).head?
            = some c2 := rfl
        have h1'' : (some c2 : Option Char) = some p1 := e1.symm.trans h1'
        injection h1'' with h1''
        have hhex := h1 c2 (by
          rw [hs, hrest]
          exact List.mem_cons_of_mem c (List.mem_cons_self c2 rest2))
        rw [h1'', hp.1] at hhex
        cases hhex

lemma member_not_group (s : String) (h1 : ∀ c ∈ s.data, isHexDash c = true) :
    pyStartsWith (s ++ ".zones") "group." = false :=
  member_not_property s h1 "group." rfl (Or.inl (by decide)) (by decide)

lemma member_not_coo (s : String) (h1 : ∀ c ∈ s.data, isHexDash c = true) :
    pyStartsWith (s ++ ".zones") "coo." = false :=
  member_not_property s h1 "coo." rfl (Or.inr ⟨by decide, by decide⟩) (by decide)

lemma member_not_serial (s : String) (h1 : ∀ c ∈ s.data, isHexDash c = true) :
    pyStartsWith (s ++ ".zones") "serial." = false :=
  member_not_property s h1 "serial." rfl (Or.inl (by decide)) (by decide)

lemma mem_setAdd {l : List String} {x w : String} :
    w ∈ setAdd l x ↔ w ∈ l ∨ w = x := by
  unfold setAdd
  split_ifs with h
  · constructor
    · exact Or.inl
    · rintro (hw | rfl)
      exacts [hw, h]
  · rw [List.mem_append, List.mem_singleton]

/-- The member-zone contributed by one node, under the well-formed node
shapes produced by parsing a generated catalog. -/
def nodeContrib (n : CatzNode) : Option String :=
  match n.ptr with
  | some (t :: _) => some (rstripDots t)
  | _ => none

lemma aux_ok_members (nodes : List CatzNode)
    (hc : ∀ (zs : List String), ∀ n ∈ nodes, processNode zs n
      = .ok (match nodeContrib n with | none => zs | some w => setAdd zs w)) :
    ∀ zs, ∃ res, get_catz_zones_aux zs nodes = .ok res ∧
      ∀ w, w ∈ res ↔ w ∈ zs ∨ ∃ n ∈ nodes, nodeContrib n = some w := by
  induction nodes with
  | nil =>
    intro zs
    exact ⟨zs, rfl, by simp⟩
  | cons n ns ih =>
    intro zs
    have hn := hc zs n (List.mem_cons_self n ns)
    have ih' := ih (fun zs' m hm => hc zs' m (List.mem_cons_of_mem _ hm))
    cases hcn : nodeContrib n with
    | none =>
      rw [hcn] at hn
      obtain ⟨res, hres, hmem⟩ := ih' zs
      refine ⟨res, by simp [get_catz_zones_aux, hn, hres], ?_⟩
      intro w
      rw [hmem w]
      constructor
      · rintro (hw | ⟨m, hm, hP⟩)
        · exact Or.inl hw
        · exact Or.inr ⟨m, List.mem_cons_of_mem _ hm, hP⟩
      · rintro (hw | ⟨m, hm, hP⟩)
        · exact Or.inl hw
        · rcases List.mem_cons.mp hm with rfl | hm'
          · rw [hcn] at hP
            cases hP
          · exact Or.inr ⟨m, hm', hP⟩
    | some v =>
      rw [hcn] at hn
      obtain ⟨res, hres, hmem⟩ := ih' (setAdd zs v)
      refine ⟨res, by simp [get_catz_zones_aux, hn, hres], ?_⟩
      intro w
      rw [hmem w, mem_setAdd]
      constructor
      · rintro ((hw | rfl) | ⟨m, hm, hP⟩)
        · exact Or.inl hw
        · exact Or.inr ⟨n, List.mem_cons_self n ns, hcn⟩
        · exact Or.inr ⟨m, List.mem_cons_of_mem _ hm, hP⟩
      · rintro (hw | ⟨m, hm, hP⟩)
        · exact Or.inl (Or.inl hw)
        · rcases List.mem_cons.mp hm with rfl | hm'
          · rw [hcn] at hP
            injection hP with hP
            exact Or.inl (Or.inr hP.symm)
          · exact Or.inr ⟨m, hm', hP⟩

lemma parseZone_eq_of_rel (origin : String) (recs rl : List GenRecord)
    (h : recs.map (fun r =>
      { r with owner := relativizeName origin r.owner,
               rdata := if r.rrtype = RRType.ptr then relativizeName origin r.rdata
                        else r.rdata }) = rl) :
    parseZone origin recs = ((rl.map (fun r => r.owner)).dedup).map (fun n =>
      { name := n
        txt := optRdatas (((rl.filter (fun r => r.owner = n)).filter
          (fun r => r.rrtype = RRType.txt)).map (fun r => r.rdata))
        ptr := optRdatas (((rl.filter (fun r => r.owner = n)).filter
          (fun r => r.rrtype = RRType.ptr)).map (fun r => r.rdata)) }) := by
  subst h
  rfl

lemma member_owner_assoc (s origin : String) :
    s ++ ".zones." ++ origin = (s ++ ".zones") ++ "." ++ origin := by
  apply String.ext
  rw [String.data_append, String.data_append, String.data_append, String.data_append]
  rw [show (".zones." : String).data = (".zones" : String).data ++ ("." : String).data
    from rfl]
  simp [List.append_assoc]

lemma version_owner_eq (origin : String) :
    ("version." ++ origin : String) = "version" ++ "." ++ origin := by
  apply String.ext
  rw [String.data_append, String.data_append, String.data_append]
  rw [show ("version." : String).data = ("version" : String).data ++ ("." : String).data
    from rfl]

lemma generate_rel_eq (zoneId : String → String) (origin : String) (serial : Nat)
    (zones : List String)
    (h4 : ∀ z ∈ zones, relativizeName origin (ensureDot z) = ensureDot z) :
    (generate_catalog_zone zoneId origin serial zones).map (fun r =>
      { r with owner := relativizeName origin r.owner,
               rdata := if r.rrtype = RRType.ptr then relativizeName origin r.rdata
                        else r.rdata })
      = [⟨"@", RRType.soa,
          "invalid. invalid. " ++ toString serial ++ " 3600 600 2147483647 0"⟩,
         ⟨"@", RRType.ns, "invalid."⟩,
         ⟨"version", RRType.txt, "\"" ++ toString CATZ_VERSION ++ "\""⟩] ++
        zones.map (fun z =>
          ⟨zoneId (ensureDot z) ++ ".zones", RRType.ptr, ensureDot z⟩) := by
  unfold generate_catalog_zone
  rw [List.map_append]
  have hver : relativizeName origin ("version." ++ origin) = "version" := by
    rw [version_owner_eq, relativizeName_append]
  have hfix : ([⟨origin, RRType.soa,
        "invalid. invalid. " ++ toString serial ++ " 3600 600 2147483647 0"⟩,
      ⟨origin, RRType.ns, "invalid."⟩,
      ⟨"version." ++ origin, RRType.txt,
        "\"" ++ toString CATZ_VERSION ++ "\""⟩] : List GenRecord).map (fun r =>
      { r with owner := relativizeName origin r.owner,
               rdata := if r.rrtype = RRType.ptr then relativizeName origin r.rdata
                        else r.rdata })
      = [⟨"@", RRType.soa,
          "invalid. invalid. " ++ toString serial ++ " 3600 600 2147483647 0"⟩,
         ⟨"@", RRType.ns, "invalid."⟩,
         ⟨"version", RRType.txt, "\"" ++ toString CATZ_VERSION ++ "\""⟩] := by
    simp [relativizeName_self, hver]
  rw [hfix, List.map_map]
  congr 1
  apply List.map_congr_left
  intro z hz
  show ({ owner := relativizeName origin (zoneId (ensureDot z) ++ ".zones." ++ origin),
          rrtype := RRType.ptr,
          rdata := if RRType.ptr = RRType.ptr
            then relativizeName origin (ensureDot z) else ensureDot z } : GenRecord)
      = ⟨zoneId (ensureDot z) ++ ".zones", RRType.ptr, ensureDot z⟩
  rw [member_owner_assoc, relativizeName_append, if_pos rfl, h4 z hz]

lemma filter_eq_singleton_of_nodup_map {zones : List String} (f : String → String)
    (h3 : (zones.map f).Nodup) {z₀ : String} (hz : z₀ ∈ zones) :
    zones.filter (fun z => f z = f z₀) = [z₀] := by
  induction zones with
  | nil => cases hz
  | cons w t ih =>
    rw [List.map_cons, List.nodup_cons] at h3
    rw [List.filter_cons]
    by_cases hfw : f w = f z₀
    · rw [if_pos (by simpa using hfw)]
      rcases List.mem_cons.mp hz with rfl | hzt
      · have htail : t.filter (fun z => f z = f z₀) = [] := by
          rw [List.filter_eq_nil_iff]
          intro a ha
          simp only [decide_eq_true_eq]
          intro hfa
          exact h3.1 (hfa ▸ List.mem_map_of_mem f ha)
        rw [htail]
      · exact absurd (hfw ▸ List.mem_map_of_mem f hzt) h3.1
    · rw [if_neg (by simpa using hfw)]
      rcases List.mem_cons.mp hz with rfl | hzt
      · exact absurd rfl hfw
      · exact ih h3.2 hzt

lemma string_append_cancel_right {a b t : String} (h : a ++ t = b ++ t) : a = b := by
  apply String.ext
  have hd := congrArg String.data h
  rw [String.data_append, String.data_append] at hd
  exact List.append_cancel_right hd

lemma rstripDots_append_dot (z : String) : rstripDots (z ++ ".") = rstripDots z := by
  unfold rstripDots
  rw [String.data_append, show (("." : String).data) = ['.'] from rfl,
    List.reverse_append]
  simp [List.dropWhile_cons]

lemma rstripDots_ensureDot (z : String) :
    rstripDots (ensureDot z) = rstripDots z := by
  unfold ensureDot
  split_ifs with h
  · rfl
  · exact rstripDots_append_dot z

/-- C3 counterexample: the round trip preserves the case of member names —
nothing along the generator/interpreter path lower-cases — so for
`Z = {"EXAMPLE.COM"}` the interpreted member set is `{"EXAMPLE.COM"}` and
the normalized (lower-cased) zone `"example.com"` is not in it, refuting
"yields exactly Z in normalized form (trailing dot stripped, lower-cased)". -/
theorem C3_counterexample :
    roundTrip (fun _ => "f0f0-1111") "catalog.test." 42 ["EXAMPLE.COM"]
      = .ok ["EXAMPLE.COM"] ∧
    pyLower "EXAMPLE.COM" = "example.com" ∧
    "example.com" ∉ ["EXAMPLE.COM"] :=
  ⟨by decide, by decide, by decide⟩

/-- C3 (amended): for every origin, serial and zone list whose dotted forms
are pairwise distinct, whose zone ids are injective hex-and-dash strings
(as version-5 UUIDs are), and whose members are not relativized by the
origin (not at or below it), interpreting the generated catalog zone
succeeds and yields exactly the members of Z with trailing dots stripped —
case preserved, no lower-casing. -/
theorem C3_roundtrip_amended :
    ∀ (zoneId : String → String) (origin : String) (serial : Nat)
      (zones : List String),
      (∀ z ∈ zones, ∀ c ∈ (zoneId (ensureDot z)).data, isHexDash c = true) →
      (∀ z₁ ∈ zones, ∀ z₂ ∈ zones,
        zoneId (ensureDot z₁) = zoneId (ensureDot z₂) → ensureDot z₁ = ensureDot z₂) →
      (zones.map ensureDot).Nodup →
      (∀ z ∈ zones, relativizeName origin (ensureDot z) = ensureDot z) →
      ∃ members, roundTrip zoneId origin serial zones = .ok members ∧
        ∀ w, w ∈ members ↔ ∃ z ∈ zones, w = rstripDots (ensureDot z) := by
  intro zoneId origin serial zones h1 h2 h3 h4
  have hrel := generate_rel_eq zoneId origin serial zones h4
  set rl : List GenRecord :=
    [⟨"@", RRType.soa,
        "invalid. invalid. " ++ toString serial ++ " 3600 600 2147483647 0"⟩,
     ⟨"@", RRType.ns, "invalid."⟩,
     ⟨"version", RRType.txt, "\"" ++ toString CATZ_VERSION ++ "\""⟩] ++
    zones.map (fun z =>
      ⟨zoneId (ensureDot z) ++ ".zones", RRType.ptr, ensureDot z⟩) with hrl
  have hparse := parseZone_eq_of_rel origin _ rl hrel
  have howners : rl.map (fun r => r.owner)
      = "@" :: "@" :: "version"
        :: zones.map (fun z => zoneId (ensureDot z) ++ ".zones") := by
    rw [hrl, List.map_append, List.map_map]
    rfl
  have hfilter_at : rl.filter (fun r => r.owner = "@")
      = [⟨"@", RRType.soa,
          "invalid. invalid. " ++ toString serial ++ " 3600 600 2147483647 0"⟩,
         ⟨"@", RRType.ns, "invalid."⟩] := by
    rw [hrl, List.filter_append]
    have hmem0 : (zones.map (fun z =>
        (⟨zoneId (ensureDot z) ++ ".zones", RRType.ptr, ensureDot z⟩ : GenRecord))).filter
        (fun r => r.owner = "@") = [] := by
      rw [List.filter_eq_nil_iff]
      intro r hr
      obtain ⟨z, hz, rfl⟩ := List.mem_map.mp hr
      simpa using member_name_ne_at (zoneId (ensureDot z))
    rw [hmem0, List.append_nil]
    simp [List.filter_cons]
  have hfilter_ver : rl.filter (fun r => r.owner = "version")
      = [⟨"version", RRType.txt, "\"" ++ toString CATZ_VERSION ++ "\""⟩] := by
    rw [hrl, List.filter_append]
    have hmem0 : (zones.map (fun z =>
        (⟨zoneId (ensureDot z) ++ ".zones", RRType.ptr, ensureDot z⟩ : GenRecord))).filter
        (fun r => r.owner = "version") = [] := by
      rw [List.filter_eq_nil_iff]
      intro r hr
      obtain ⟨z, hz, rfl⟩ := List.mem_map.mp hr
      simpa using member_name_ne_version (zoneId (ensureDot z))
    rw [hmem0, List.append_nil]
    simp [List.filter_cons]
  have hfilter_mem : ∀ z₀ ∈ zones,
      rl.filter (fun r => r.owner = zoneId (ensureDot z₀) ++ ".zones")
        = [⟨zoneId (ensureDot z₀) ++ ".zones", RRType.ptr, ensureDot z₀⟩] := by
    intro z₀ hz₀
    rw [hrl, List.filter_append]
    have h₁ : ¬ ("@" : String) = zoneId (ensureDot z₀) ++ ".zones" :=
      fun h => member_name_ne_at _ h.symm
    have h₂ : ¬ ("version" : String) = zoneId (ensureDot z₀) ++ ".zones" :=
      fun h => member_name_ne_version _ h.symm
    have hfixed : ([⟨"@", RRType.soa,
          "invalid. invalid. " ++ toString serial ++ " 3600 600 2147483647 0"⟩,
        ⟨"@", RRType.ns, "invalid."⟩,
        ⟨"version", RRType.txt,
          "\"" ++ toString CATZ_VERSION ++ "\""⟩] : List GenRecord).filter
        (fun r => r.owner = zoneId (ensureDot z₀) ++ ".zones") = [] := by
      simp [List.filter_cons, h₁, h₂]
    rw [hfixed, List.nil_append, List.filter_map]
    have hpred : ∀ z ∈ zones,
        ((fun r : GenRecord => decide (r.owner = zoneId (ensureDot z₀) ++ ".zones")) ∘
          (fun z => (⟨zoneId (ensureDot z) ++ ".zones", RRType.ptr,
            ensureDot z⟩ : GenRecord))) z
          = decide (ensureDot z = ensureDot z₀) := by
      intro z hz
      simp only [Function.comp]
      by_cases he : ensureDot z = ensureDot z₀
      · simp [he]
      · have hne : ¬ (zoneId (ensureDot z) ++ ".zones"
            = zoneId (ensureDot z₀) ++ ".zones") := by
          intro hh
          exact he (h2 z hz z₀ hz₀ (string_append_cancel_right hh))
        simp [hne, he]
    rw [List.filter_congr hpred, filter_eq_singleton_of_nodup_map ensureDot h3 hz₀]
    rfl
  have hshape : ∀ n ∈ parseZone origin (generate_catalog_zone zoneId origin serial zones),
      n = (⟨"@", none, none⟩ : CatzNode) ∨
      n = ⟨"version", some ["\"" ++ toString CATZ_VERSION ++ "\""], none⟩ ∨
      ∃ z ∈ zones, n = ⟨zoneId (ensureDot z) ++ ".zones", none, some [ensureDot z]⟩ := by
    intro n hn
    rw [hparse] at hn
    obtain ⟨name, hname, rfl⟩ := List.mem_map.mp hn
    rw [List.mem_dedup, howners] at hname
    rcases List.mem_cons.mp hname with rfl | hname
    · left
      simp [hfilter_at, optRdatas, List.filter_cons]
    rcases List.mem_cons.mp hname with rfl | hname
    · left
      simp [hfilter_at, optRdatas, List.filter_cons]
    rcases List.mem_cons.mp hname with rfl | hname
    · right
      left
      simp [hfilter_ver, optRdatas, List.filter_cons]
    · obtain ⟨z₀, hz₀, rfl⟩ := List.mem_map.mp hname
      right
      right
      exact ⟨z₀, hz₀, by simp [hfilter_mem z₀ hz₀, optRdatas, List.filter_cons]⟩
  have hmemnode : ∀ z₀ ∈ zones,
      (⟨zoneId (ensureDot z₀) ++ ".zones", none, some [ensureDot z₀]⟩ : CatzNode)
        ∈ parseZone origin (generate_catalog_zone zoneId origin serial zones) := by
    intro z₀ hz₀
    rw [hparse]
    refine List.mem_map.mpr ⟨zoneId (ensureDot z₀) ++ ".zones", ?_, ?_⟩
    · rw [List.mem_dedup, howners]
      exact List.mem_cons_of_mem _ (List.mem_cons_of_mem _ (List.mem_cons_of_mem _
        (List.mem_map.mpr ⟨z₀, hz₀, rfl⟩)))
    · simp [hfilter_mem z₀ hz₀, optRdatas, List.filter_cons]
  have hproc : ∀ (zs : List String),
      ∀ n ∈ parseZone origin (generate_catalog_zone zoneId origin serial zones),
      processNode zs n
        = .ok (match nodeContrib n with | none => zs | some w => setAdd zs w) := by
    intro zs n hn
    rcases hshape n hn with rfl | rfl | ⟨z₀, hz₀, rfl⟩
    · rw [show nodeContrib (⟨"@", none, none⟩ : CatzNode) = none from rfl]
      exact processNode_other zs "@" none none
        (by decide) (by decide) (by decide) (by decide) (by decide)
    · rw [show nodeContrib (⟨"version",
          some ["\"" ++ toString CATZ_VERSION ++ "\""], none⟩ : CatzNode)
        = none from rfl]
      exact processNode_version_ok zs _ [] none (by decide)
    · rw [show nodeContrib (⟨zoneId (ensureDot z₀) ++ ".zones", none,
          some [ensureDot z₀]⟩ : CatzNode)
        = some (rstripDots (ensureDot z₀)) from rfl]
      rw [processNode_zones_node zs _ none _ (member_name_ne_version _)
        (member_not_group _ (h1 z₀ hz₀)) (member_not_coo _ (h1 z₀ hz₀))
        (member_not_serial _ (h1 z₀ hz₀)) (member_endsWith_zones _)]
      simp
  obtain ⟨res, hres, hmemres⟩ := aux_ok_members _ hproc []
  refine ⟨res, hres, ?_⟩
  intro w
  rw [hmemres w]
  constructor
  · rintro (hfalse | ⟨n, hn, hP⟩)
    · cases hfalse
    · rcases hshape n hn with rfl | rfl | ⟨z₀, hz₀, rfl⟩
      · cases hP
      · cases hP
      · rw [show nodeContrib (⟨zoneId (ensureDot z₀) ++ ".zones", none,
            some [ensureDot z₀]⟩ : CatzNode)
          = some (rstripDots (ensureDot z₀)) from rfl] at hP
        injection hP with hP
        exact ⟨z₀, hz₀, hP.symm⟩
  · rintro ⟨z₀, hz₀, rfl⟩
    exact Or.inr ⟨_, hmemnode z₀ hz₀, rfl⟩

/-- Witness for the amended C3: a two-zone set (one already dotted, one
mixed-case) rounds through generation and interpretation to exactly its
dot-stripped members. -/
theorem C3_roundtrip_amended_witness :
    ∃ members, roundTrip (fun s => if s = "a.com." then "a0a0" else "b1b1")
        "catalog.test." 7 ["a.com", "B.org."] = .ok members ∧
      ∀ w, w ∈ members ↔ ∃ z ∈ ["a.com", "B.org."], w = rstripDots (ensureDot z) :=
  C3_roundtrip_amended (fun s => if s = "a.com." then "a0a0" else "b1b1")
    "catalog.test." 7 ["a.com", "B.org."]
    (by decide) (by decide) (by decide) (by decide)

end Dnscatz
